import Mathlib

/-!
# cschnorr: Schnorr signatures over secp256k1 (src/signature.c)

A shallow embedding of `src/src/signature.c` and the properties of its specification.

* A `BIGNUM` is an `Int` (OpenSSL big numbers are signed and unbounded; the
  source never reduces modulo the group order).
* A byte is a `Nat` below 256, a buffer is a `List Nat`.
* The OpenSSL calls the source makes (`EC_POINT_mul`,
  `EC_POINT_get_affine_coordinates_GFp`, `EC_GROUP_get_order`, `SHA256_*`)
  are the fields of `Lib`; `openssl` is the instance the program links
  against: the curve secp256k1 and SHA-256, both executable.
* Memory the source reads before writing it (the `r` array of a freshly
  `malloc`ed signature, the stack array `x` of `schnorr_verify`) is an
  explicit argument holding the previous contents of that memory.
* Allocation failures (`malloc`, `BN_new`, `BN_CTX_new`, ...) are not modelled.
* `multisig.c` is not among the sources: `musig_sign`, `musig_aggregate` and `musig_verify`,
  which `main.c` calls, are modelled from sections 4.7 and 4.5 of the specification.

The executable curve arithmetic is tied to Mathlib's group of points of
`y^2 = x^3 + 7` over `ZMod secpP` (`secpAdd_spec`, `secpNeg_spec`, `secpMul_spec`), the
primality of `secpP` being proved from a Lucas certificate chain.
-/

namespace Cschnorr

/-! ## SHA-256 (FIPS 180-4), the primitive behind `hash` -/

/-- Round constants of SHA-256: the first 32 bits of the fractional parts of the cube roots of
the first 64 primes (`0x428a2f98`, `0x71374491`, ...), in decimal. -/
def sha256K : List Nat :=
  [1116352408, 1899447441, 3049323471, 3921009573, 961987163, 1508970993, 2453635748, 2870763221,
   3624381080, 310598401, 607225278, 1426881987, 1925078388, 2162078206, 2614888103, 3248222580,
   3835390401, 4022224774, 264347078, 604807628, 770255983, 1249150122, 1555081692, 1996064986,
   2554220882, 2821834349, 2952996808, 3210313671, 3336571891, 3584528711, 113926993, 338241895,
   666307205, 773529912, 1294757372, 1396182291, 1695183700, 1986661051, 2177026350, 2456956037,
   2730485921, 2820302411, 3259730800, 3345764771, 3516065817, 3600352804, 4094571909, 275423344,
   430227734, 506948616, 659060556, 883997877, 958139571, 1322822218, 1537002063, 1747873779,
   1955562222, 2024104815, 2227730452, 2361852424, 2428436474, 2756734187, 3204031479, 3329325298]

/-- Initial hash value of SHA-256: the first 32 bits of the fractional parts of the square roots
of the first 8 primes (`0x6a09e667`, ...), in decimal. -/
def sha256Init : List Nat :=
  [1779033703, 3144134277, 1013904242, 2773480762, 1359893119, 2600822924, 528734635, 1541459225]

/-- Rotate a 32-bit word right by `n` bits. -/
def rotr32 (x n : Nat) : Nat := ((x >>> n) ||| (x <<< (32 - n))) % 4294967296

/-- Addition of 32-bit words. -/
def add32 (x y : Nat) : Nat := (x + y) % 4294967296

/-- Big-endian value of a byte string (each byte taken modulo 256). -/
def beNat (bs : List Nat) : Nat := bs.foldl (fun acc b => acc * 256 + b % 256) 0

/-- Big-endian encoding of `x` modulo `256 ^ len` on exactly `len` bytes. -/
def beBytes : Nat → Nat → List Nat
  | 0, _ => []
  | len + 1, x => beBytes len (x / 256) ++ [x % 256]

/-- Split a byte string into chunks of `n` bytes (`fuel` bounds the number of chunks). -/
def chunks (n : Nat) : Nat → List Nat → List (List Nat)
  | 0, _ => []
  | fuel + 1, bs => if bs = [] then [] else bs.take n :: chunks n fuel (bs.drop n)

/-- Padding of SHA-256: a `0x80` byte, zero bytes up to 56 modulo 64, the bit length on 8 bytes. -/
def sha256Pad (msg : List Nat) : List Nat :=
  msg ++ [0x80] ++ List.replicate ((119 - msg.length % 64) % 64) 0 ++ beBytes 8 (8 * msg.length)

/-- Extend the message schedule by `fuel` words; the schedule is kept newest word first. -/
def sha256Schedule : Nat → List Nat → List Nat
  | 0, w => w
  | fuel + 1, w =>
    let w15 := w.getD 14 0
    let w2 := w.getD 1 0
    let s0 := rotr32 w15 7 ^^^ rotr32 w15 18 ^^^ (w15 >>> 3)
    let s1 := rotr32 w2 17 ^^^ rotr32 w2 19 ^^^ (w2 >>> 10)
    sha256Schedule fuel (add32 (add32 (add32 (w.getD 15 0) s0) (w.getD 6 0)) s1 :: w)

/-- The rounds of the SHA-256 compression function on the working variables `a..h`, one for
each pair of a round constant and a schedule word. -/
def sha256Rounds :
    List (Nat × Nat) → Nat → Nat → Nat → Nat → Nat → Nat → Nat → Nat → List Nat
  | [], a, b, c, d, e, f, g, h => [a, b, c, d, e, f, g, h]
  | kw :: rest, a, b, c, d, e, f, g, h =>
    let t1 := add32 (add32 (add32 (add32 h (rotr32 e 6 ^^^ rotr32 e 11 ^^^ rotr32 e 25))
      ((e &&& f) ^^^ ((4294967295 - e) &&& g))) kw.1) kw.2
    let t2 := add32 (rotr32 a 2 ^^^ rotr32 a 13 ^^^ rotr32 a 22)
      ((a &&& b) ^^^ (a &&& c) ^^^ (b &&& c))
    sha256Rounds rest (add32 t1 t2) a b c (add32 d t1) e f g

/-- Process one 64-byte block. -/
def sha256Block (hs : List Nat) (block : List Nat) : List Nat :=
  let w := (sha256Schedule 48 ((chunks 4 16 block).map beNat).reverse).reverse
  match hs with
  | [a, b, c, d, e, f, g, h] => List.zipWith add32 hs (sha256Rounds (sha256K.zip w) a b c d e f g h)
  | _ => hs

/-- SHA-256 of a byte string, as 32 bytes. -/
def sha256 (msg : List Nat) : List Nat :=
  let padded := sha256Pad (msg.map (· % 256))
  let hs := (chunks 64 (padded.length / 64) padded).foldl sha256Block sha256Init
  (hs.map (beBytes 4)).flatten

/-! ## OpenSSL big numbers -/

/-- Digits of `BN_bn2bin`, most significant first (`fuel` bounds the number of digits). -/
def bn2binAux : Nat → Nat → List Nat → List Nat
  | 0, _, acc => acc
  | fuel + 1, x, acc => if x = 0 then acc else bn2binAux fuel (x / 256) (x % 256 :: acc)

/-- The bytes `BN_bn2bin(a, to)` writes: the big-endian encoding of the absolute value of `a`
on exactly `BN_num_bytes(a)` bytes, with no padding; the call returns their number. -/
def BN_bn2bin (a : Int) : List Nat := bn2binAux a.natAbs a.natAbs []

/-- The number `BN_bin2bn(s, len, ret)` stores: the big-endian value of the first `len` bytes. -/
def BN_bin2bn (s : List Nat) (len : Nat) : Int := (beNat (s.take len) : Nat)

/-- Result of `BN_cmp(a, b)`: -1, 0 or 1. -/
def BN_cmp (a b : Int) : Int := if a < b then -1 else if a = b then 0 else 1

/-- Result of `BN_is_odd(a)`. -/
def BN_is_odd (a : Int) : Bool := a.natAbs % 2 = 1

/-- Quotient of `BN_div(dv, NULL, m, d,
    ctx)`: rounded towards zero; the call fails when `d` is zero. -/
def BN_div (m d : Int) : Option Int := if d = 0 then none else some (Int.tdiv m d)

/-- Memory after a call writes `bs` at the start of a buffer that held `buf`. -/
def writeBuf (buf bs : List Nat) : List Nat := bs ++ buf.drop bs.length

/-- Result of `memcmp(x, y, len) == 0`. -/
def memEq (x y : List Nat) (len : Nat) : Bool := x.take len = y.take len

/-! ## The library interface -/

/-- The OpenSSL operations `signature.c` calls. -/
structure Lib where
  /-- An `EC_POINT` of the group. -/
  Point : Type
  /-- The value `EC_GROUP_get_order` stores. -/
  order : Int
  /-- The point `EC_GROUP_get0_generator` returns. -/
  G : Point
  /-- Sum of two points. -/
  add : Point → Point → Point
  /-- Multiple of a point by a (signed, unreduced) big number. -/
  smul : Int → Point → Point
  /-- Affine coordinates stored by `EC_POINT_get_affine_coordinates_GFp`; the call fails,
  here `none`, exactly on the point at infinity. -/
  coords : Point → Option (Nat × Nat)
  /-- Result of `EC_POINT_is_at_infinity`. -/
  isInf : Point → Bool
  /-- Digest computed by `SHA256_Init`, `SHA256_Update`, `SHA256_Final`. -/
  sha : List Nat → List Nat

/-- Point stored by `EC_POINT_mul(group, r, n, q, m, ctx)`: `n * G + m * q`, where a `NULL`
`n` drops the generator term. -/
def EC_POINT_mul (L : Lib) (n : Option Int) (q : L.Point) (m : Int) : L.Point :=
  match n with
  | none => L.smul m q
  | some n => L.add (L.smul n L.G) (L.smul m q)

/-! ## secp256k1 -/

/-- Field prime of secp256k1. -/
def secpP : Nat := 0xFFFFFFFFFFFFFFFFFFFFFFFFFFFFFFFFFFFFFFFFFFFFFFFFFFFFFFFEFFFFFC2F

/-- Order of the generator of secp256k1. -/
def secpN : Nat := 0xFFFFFFFFFFFFFFFFFFFFFFFFFFFFFFFEBAAEDCE6AF48A03BBFD25E8CD0364141

/-- Generator of secp256k1. -/
def secpG : Option (Nat × Nat) :=
  some (0x79BE667EF9DCBBAC55A06295CE870B07029BFCDB2DCE28D959F2815B16F81798,
        0x483ADA7726A3C4655DA4FBFC0E1108A8FD17B448A68554199C47D08FFB10D4B8)

/-- Square-and-multiply loop of `powMod`. -/
def powModAux : Nat → Nat → Nat → Nat → Nat → Nat
  | 0, _, _, _, acc => acc
  | fuel + 1, b, e, m, acc =>
    if e = 0 then acc
    else powModAux fuel (b * b % m) (e / 2) m (if e % 2 = 1 then acc * b % m else acc)

/-- Modular exponentiation `b ^ e % m`. -/
def powMod (b e m : Nat) : Nat := powModAux e (b % m) e m (1 % m)

/-- Inverse modulo the field prime. -/
def secpInv (a : Nat) : Nat := powMod a (secpP - 2) secpP

/-- Subtraction modulo the field prime. -/
def fsub (a b : Nat) : Nat := (a + (secpP - b % secpP)) % secpP

/-- Multiplication modulo the field prime. -/
def fmul (a b : Nat) : Nat := a * b % secpP

/-- Opposite of a point of secp256k1. -/
def secpNeg : Option (Nat × Nat) → Option (Nat × Nat)
  | none => none
  | some (x, y) => some (x, fsub 0 y)

/-- Chord-and-tangent addition on secp256k1 (`y^2 = x^3 + 7`), `none` being the point at
infinity. -/
def secpAdd : Option (Nat × Nat) → Option (Nat × Nat) → Option (Nat × Nat)
  | none, Q => Q
  | some P, none => some P
  | some (x1, y1), some (x2, y2) =>
    if x1 = x2 ∧ (y1 + y2) % secpP = 0 then none
    else
      let l := if x1 = x2 then fmul (fmul 3 (fmul x1 x1)) (secpInv (fmul 2 y1))
               else fmul (fsub y1 y2) (secpInv (fsub x1 x2))
      let x3 := fsub (fsub (fmul l l) x1) x2
      some (x3, fsub (fmul l (fsub x1 x3)) y1)

/-- A point in Jacobian coordinates: `(X / Z^2, Y / Z^3)`, at infinity when `Z = 0`. -/
structure Jac where
  X : Nat
  Y : Nat
  Z : Nat

/-- Doubling in Jacobian coordinates. -/
def jacDbl (P : Jac) : Jac :=
  let A := fmul P.X P.X
  let B := fmul P.Y P.Y
  let C := fmul B B
  let D := fmul 4 (fmul P.X B)
  let E := fmul 3 A
  let X3 := fsub (fmul E E) (fmul 2 D)
  ⟨X3, fsub (fmul E (fsub D X3)) (fmul 8 C), fmul 2 (fmul P.Y P.Z)⟩

/-- Addition of the affine point `(x2, y2)` to a point in Jacobian coordinates. -/
def jacAddAff (P : Jac) (x2 y2 : Nat) : Jac :=
  if P.Z % secpP = 0 then ⟨x2, y2, 1⟩
  else
    let ZZ := fmul P.Z P.Z
    let U2 := fmul x2 ZZ
    let S2 := fmul y2 (fmul P.Z ZZ)
    let H := fsub U2 P.X
    let R := fsub S2 P.Y
    if H = 0 then
      if R = 0 then jacDbl ⟨x2, y2, 1⟩ else ⟨1, 1, 0⟩
    else
      let HH := fmul H H
      let HHH := fmul H HH
      let V := fmul P.X HH
      let X3 := fsub (fsub (fmul R R) HHH) (fmul 2 V)
      ⟨X3, fsub (fmul R (fsub V X3)) (fmul P.Y HHH), fmul P.Z H⟩

/-- Affine coordinates of a point in Jacobian coordinates. -/
def jacToAffine (P : Jac) : Option (Nat × Nat) :=
  if P.Z % secpP = 0 then none
  else
    let zi := secpInv P.Z
    let zi2 := fmul zi zi
    some (fmul P.X zi2, fmul P.Y (fmul zi2 zi))

/-- Counting loop of `bitLen`. -/
def bitLenAux : Nat → Nat → Nat → Nat
  | 0, _, acc => acc
  | fuel + 1, k, acc => if k = 0 then acc else bitLenAux fuel (k / 2) (acc + 1)

/-- Number of binary digits of `k`. -/
def bitLen (k : Nat) : Nat := bitLenAux k k 0

/-- Double-and-add loop of `secpMul`, over the `i` low bits of `k`, most significant first. -/
def jacMulAux (k x y : Nat) : Nat → Jac → Jac
  | 0, acc => acc
  | i + 1, acc =>
    let d := jacDbl acc
    jacMulAux k x y i (if k / 2 ^ i % 2 = 1 then jacAddAff d x y else d)

/-- Multiple of a point of secp256k1 by an integer of either sign. -/
def secpMul (k : Int) (P : Option (Nat × Nat)) : Option (Nat × Nat) :=
  match P with
  | none => none
  | some (x, y) =>
    let Q := jacToAffine (jacMulAux k.natAbs x y (bitLen k.natAbs) ⟨1, 1, 0⟩)
    if k < 0 then secpNeg Q else Q

/-- The library the program links against: secp256k1 (`NID_secp256k1`) and SHA-256. -/
def openssl : Lib where
  Point := Option (Nat × Nat)
  order := secpN
  G := secpG
  add := secpAdd
  smul := secpMul
  coords := fun P => P
  isInf := fun P => P.isNone
  sha := sha256

/-! ## Data model (`signature.h`) -/

/-- Modelled from the spec: `schnorr_sig` is declared in `signature.h`, which is not among the
sources; a 32-byte array `r` and a big number `s`, as `signature.c` uses them. -/
structure schnorr_sig where
  r : List Nat
  s : Int
deriving DecidableEq, Repr

/-- Modelled from the spec: `committed_r_pubkey` of `signature.h`; a point `A` and a 32-byte
array `r`, as `signature.c` uses them. -/
structure committed_r_pubkey (P : Type) where
  A : P
  r : List Nat
deriving DecidableEq, Repr

/-- Modelled from the spec: `committed_r_key` of `signature.h`; big numbers `a` and `k` and the
public key `pub`, as `signature.c` uses them. -/
structure committed_r_key (P : Type) where
  a : Int
  k : Int
  pub : committed_r_pubkey P
deriving DecidableEq, Repr

/-! ## The functions of `signature.c` -/

/-- Digest written by `hash(out, in, len)`: SHA-256 of the input. -/
def hash (L : Lib) (inp : List Nat) : List Nat := L.sha inp

/-- Tail of `gen_r` (lines 93-97): write `Rx` with `BN_bn2bin` into the buffer holding `r`;
fail when no byte was written. -/
def gen_r_emit (r : List Nat) (k : Int) (Rx : Nat) : Option (List Nat × Int) :=
  if (BN_bn2bin Rx).length ≤ 0 then none
  else some (writeBuf r (BN_bn2bin Rx), k)

/-- The function `gen_r(r, k)`: `none` when it returns 0, else the new contents of the buffer `r`
(which held `r` before the call) and of the big number `k`. -/
def gen_r (L : Lib) (r : List Nat) (k : Int) : Option (List Nat × Int) :=
  match L.coords (EC_POINT_mul L none L.G k) with
  | none => none
  | some (Rx, Ry) =>
    if BN_is_odd Ry then
      let k := 0 - k
      match L.coords (EC_POINT_mul L none L.G k) with
      | none => none
      | some (Rx, _) => gen_r_emit r k Rx
    else gen_r_emit r k Rx

/-- The function `gen_h(msg, len, r, out)`: the returned code (1 accepted, -1 rejected) and the
number left in `out`. -/
def gen_h (L : Lib) (msg : List Nat) (r : List Nat) : Int × Int :=
  let msgHash := hash L msg
  let payload := r.take 32 ++ msgHash.take 32
  let h := hash L payload
  let out := BN_bin2bn h 32
  if out = 0 then (-1, out)
  else if BN_cmp out L.order ≠ -1 then (-1, out)
  else (1, out)

/-- The function `schnorr_sign(dest, key, msg, len)`: `none` when it returns 0, else the signature
stored in `dest`. `r0` is what the `malloc`ed signature held, `k0` the number `BN_rand` drew,
`a` the private scalar `key->a`. -/
def schnorr_sign (L : Lib) (r0 : List Nat) (k0 : Int) (a : Int) (msg : List Nat) :
    Option schnorr_sig :=
  match gen_r L r0 k0 with
  | none => none
  | some (r, k) =>
    let (code, BNh) := gen_h L msg r
    if code = 0 then none
    else
      let s := BNh * a
      let s := k - s
      some ⟨r, s⟩

/-- The function `schnorr_verify(sig, pubkey, msg, len)`: the returned code (1 valid, -1 invalid,
0 error). `x0` is what the stack array `x` held, `A` the point `pubkey->A`. -/
def schnorr_verify (L : Lib) (x0 : List Nat) (sig : schnorr_sig) (A : L.Point) (msg : List Nat) :
    Int :=
  if BN_cmp sig.s L.order ≠ -1 then -1
  else
    let (genRes, BNh) := gen_h L msg sig.r
    if genRes ≠ 1 then genRes
    else
      let R := EC_POINT_mul L (some sig.s) A BNh
      match L.coords R with
      | none => 0
      | some (Rx, Ry) =>
        if BN_is_odd Ry then -1
        else if L.isInf R then -1
        else if (BN_bn2bin Rx).length ≤ 0 then 0
        else
          let x := writeBuf x0 (BN_bn2bin Rx)
          if memEq x sig.r 32 then 1 else -1

/-- The function `committed_r_sign(dest, key, msg, len)`: `none` when it returns 0, else the
number `s` of the signature stored in `dest`. -/
def committed_r_sign (L : Lib) (key : committed_r_key L.Point) (msg : List Nat) : Option Int :=
  let (code, BNh) := gen_h L msg key.pub.r
  if code = 0 then none
  else
    let s := BNh * key.a
    some (key.k - s)

/-- The function `committed_r_verify(sig, pubkey, msg, len)`: the code `schnorr_verify` returns
on the signature `(pubkey->r, sig->s)` and the key `pubkey->A`. -/
def committed_r_verify (L : Lib) (x0 : List Nat) (s : Int) (pubkey : committed_r_pubkey L.Point)
    (msg : List Nat) : Int :=
  schnorr_verify L x0 ⟨pubkey.r.take 32, s⟩ pubkey.A msg

/-- The function `committed_r_recover(sig1, msg1, len1, sig2, msg2, len2, pubkey, dest)`: `none`
when it returns 0, else the key stored in `dest`. `s1`, `s2` are `sig1->s`, `sig2->s`; `r0` is
what the `malloc`ed public key held. -/
def committed_r_recover (L : Lib) (r0 : List Nat) (s1 : Int) (msg1 : List Nat) (s2 : Int)
    (msg2 : List Nat) (pubkey : committed_r_pubkey L.Point) : Option (committed_r_key L.Point) :=
  let a := s2 - s1
  let (genRes1, h1) := gen_h L msg1 pubkey.r
  if genRes1 ≠ 1 then none
  else
    let (genRes2, h2) := gen_h L msg2 pubkey.r
    if genRes2 ≠ 1 then none
    else
      let h1 := h1 - h2
      match BN_div a h1 with
      | none => none
      | some a =>
        let k := h2 * a
        let k := s2 + k
        match gen_r L r0 k with
        | none => none
        | some (r, k) => some ⟨a, k, ⟨EC_POINT_mul L none L.G a, r⟩⟩

/-! ## MuSig aggregation (`multisig.c`, modelled from the specification) -/

/-- Modelled from the spec: `multisig.c` is not among the sources. What section 4.7 leaves to
the implementation: the canonical encoding of a public-key point (section 6), and the point
`R_i` a public key publishes through its `r` (the point with that X-coordinate and an even Y). -/
structure musig_env (L : Lib) where
  encode : L.Point → List Nat
  point_of_r : List Nat → Option L.Point

/-- The values of a list of optional values, when none is missing. -/
def allSome {α : Type} : List (Option α) → Option (List α)
  | [] => some []
  | none :: _ => none
  | some a :: rest =>
    match allSome rest with
    | none => none
    | some l => some (a :: l)

/-- Sum of a list of points, from the left; there is none for the empty list. -/
def point_sum (L : Lib) : List L.Point → Option L.Point
  | [] => none
  | P :: rest => some (rest.foldl L.add P)

/-- Modelled from the spec: the hash `L = SHA256(A_1 ‖ ... ‖ A_L)` of the encoded public keys
(section 4.7, `multisig.c` is not among the sources). -/
def musig_L (L : Lib) (E : musig_env L) (pubkeys : List (committed_r_pubkey L.Point)) :
    List Nat :=
  hash L (pubkeys.map (fun P => E.encode P.A)).flatten

/-- Modelled from the spec: the coefficient `a_i = H_agg(L, A_i)` (section 4.7, `multisig.c` is
not among the sources): the big-endian integer of the hash of `L` followed by the encoded
`A_i`, rejected (`none`) when it is 0 or not below the group order, as in section 4.2. -/
def musig_coeff (L : Lib) (E : musig_env L) (Lh : List Nat) (A : L.Point) : Option Int :=
  let h := BN_bin2bn (hash L (Lh ++ E.encode A)) 32
  if h = 0 then none
  else if BN_cmp h L.order ≠ -1 then none
  else some h

/-- Modelled from the spec: the combined key of section 4.7 (`multisig.c` is not among the
sources): `A* = Σ a_i * A_i` and `r* = R*.x` on 32 bytes, big-endian and zero-padded, where
`R* = Σ R_i` must have an even Y: when it is odd the aggregate is to be renegotiated and there
is no result, as when a coefficient is rejected or a published `r` is the X of no point. -/
def musig_combine (L : Lib) (E : musig_env L) (pubkeys : List (committed_r_pubkey L.Point)) :
    Option (L.Point × List Nat) :=
  let Lh := musig_L L E pubkeys
  match allSome (pubkeys.map (fun P => (musig_coeff L E Lh P.A).map (fun a => L.smul a P.A))),
      allSome (pubkeys.map (fun P => E.point_of_r P.r)) with
  | some terms, some Rs =>
    match point_sum L terms, point_sum L Rs with
    | some Astar, some Rstar =>
      match L.coords Rstar with
      | none => none
      | some (Rx, Ry) => if BN_is_odd Ry then none else some (Astar, beBytes 32 Rx)
    | _, _ => none
  | _, _ => none

/-- Modelled from the spec: the function `musig_sign` of `multisig.c`, which is not among the
sources (section 4.7, partial sign): with `A*` and `r*` the combined key and `h = H(msg, r*)`,
the partial signature `(r*, s_i)` with `s_i = k_i - h * a_i * x_i mod n`, `x_i` being the
private scalar of the signer and `a_i` the coefficient of its public key, and the combined
public key `A*`; `none` when it returns 0 (no combined key, or `H` rejects). -/
def musig_sign (L : Lib) (E : musig_env L) (key : committed_r_key L.Point)
    (pubkeys : List (committed_r_pubkey L.Point)) (msg : List Nat) :
    Option (schnorr_sig × L.Point) :=
  match musig_combine L E pubkeys, musig_coeff L E (musig_L L E pubkeys) key.pub.A with
  | some (Astar, rstar), some ai =>
    let (code, h) := gen_h L msg rstar
    if code ≠ 1 then none
    else some (⟨rstar, (key.k - h * ai * key.a) % L.order⟩, Astar)
  | _, _ => none

/-- Modelled from the spec: the function `musig_aggregate` of `multisig.c`, which is not among
the sources (section 4.7, aggregate): `(r*, s*)` with `s* = Σ s_i mod n` and `r*` the `r` the
partial signatures carry; `none` when it returns 0 (no signature given). -/
def musig_aggregate (L : Lib) (sigs : List schnorr_sig) : Option schnorr_sig :=
  match sigs with
  | [] => none
  | sig :: _ => some ⟨sig.r, (sigs.map (fun t => t.s)).sum % L.order⟩

/-- Modelled from the spec: the function `musig_verify` of `multisig.c`, which is not among the
sources (section 4.7, verify: section 4.5 applied to the aggregate signature and the combined
public key), in the steps of section 4.5, 1 standing for valid and -1 for invalid. `s ≥ n` is
invalid; `h = H(msg, sig.r)` is the hash to a scalar of section 4.2 (`gen_h`), invalid when it
rejects; `R' = s * G + h * A` is invalid when it is the point at infinity and when its Y is odd;
then the X-coordinate of `R'` is encoded big-endian on 32 bytes and compared byte by byte with
`sig.r`: equal is valid, anything else invalid. -/
def musig_verify (L : Lib) (sig : schnorr_sig) (A : L.Point) (msg : List Nat) : Int :=
  if L.order ≤ sig.s then -1
  else
    let (code, h) := gen_h L msg sig.r
    if code ≠ 1 then -1
    else
      let R := EC_POINT_mul L (some sig.s) A h
      if L.isInf R then -1
      else
        match L.coords R with
        | none => -1
        | some (Rx, Ry) =>
          if Ry % 2 = 1 then -1
          else if beBytes 32 Rx = sig.r.take 32 then 1 else -1

/-! ## Inputs of the worked examples -/

instance : DecidableEq openssl.Point := inferInstanceAs (DecidableEq (Option (Nat × Nat)))

/-- The message `"hello"` that `main.c` signs. -/
def msgHello : List Nat := [104, 101, 108, 108, 111]

/-- The message `"hellO"` that `main.c` signs. -/
def msgHellO : List Nat := [104, 101, 108, 108, 79]

/-- A 32-byte memory area holding zero bytes. -/
def zeros32 : List Nat := List.replicate 32 0

/-- A 32-byte memory area holding `0xFF` bytes. -/
def ones32 : List Nat := List.replicate 32 255

/-- The library with the digest replaced by the constant 32 bytes `0xFF`, whose big-endian value
`2^256 - 1` is not below the group order: `gen_h` rejects every hash. -/
def opensslFF : Lib := { openssl with sha := fun _ => List.replicate 32 255 }

/-- X-coordinate of `153 * G`; it is below `2^248`, so `BN_bn2bin` writes it on 31 bytes. -/
def x153 : Nat := 402275873819480217527543954245978242749948912216697339260697277277855307913

/-- Y-coordinate of `153 * G`; it is even. -/
def y153 : Nat := 19411896589701336237661297174692886517905212093130893753719983191330346751652

/-- The 31 bytes `BN_bn2bin` writes for `x153`. -/
def r153 : List Nat :=
  [227, 174, 25, 116, 86, 108, 160, 108, 197, 22, 212, 126, 15, 177, 101, 166, 116, 163, 218, 188,
   252, 161, 94, 114, 47, 14, 52, 80, 244, 88, 137]

/-- The signature `schnorr_sign` stores for the key `a = 1`, the message `"hello"` and the drawn
nonce 153 when the `malloc`ed memory held zero bytes: byte 31 of `r` is left as it was. -/
def sig153 : schnorr_sig := ⟨r153 ++ [0],
    -38777728596872136084947046313657757891580296446943809539754645056981248372266⟩

/-- The committed-R key `a = 1`, `k = 153`, `A = G`, with `r` the X-coordinate of `153 * G` on
32 bytes, big-endian, padded with a leading zero byte. -/
def keyPadded : committed_r_key openssl.Point := ⟨1, 153, ⟨openssl.G, 0 :: r153⟩⟩

/-- The hash `gen_h` accepts for `"hello"` against 32 zero bytes. -/
def hashHelloZeros : Int :=
  68895006649466672627229582954798835670154838579738326009121484002508542744696

/-- The hash `gen_h` accepts for `"hello"` against the `r` of `keyPadded`. -/
def hashHello153 : Int :=
  71496148629086832761799431549357884817388904009962930234002405184054777192368

/-- The hash `gen_h` accepts for `"hellO"` against the `r` of `keyPadded`. -/
def hashHellO153 : Int :=
  46817304122730142802677993960015616147367490376187008344376702416719560174550

/-- The hash `gen_h` accepts for `"hello"` against `rG`. -/
def hashHelloG : Int :=
  24646512799910395283156989910615887261351421410164218246621824816963929289469

/-- The hash `gen_h` accepts for `"hellO"` against `rG`. -/
def hashHellOG : Int :=
  510114294113046188747314753647773099082872894432338424235323685931321553939

/-- The signature `schnorr_sign` stores for the key `a = 12345`, the message `"hellO"` and the
drawn nonce 1158 (whose `k * G` has an odd Y, and an X-coordinate of 31 bytes) when the
`malloc`ed memory held zero bytes. -/
def sig1158 : schnorr_sig :=
  ⟨[65, 233, 12, 11, 48, 96, 251, 222, 190, 14, 141, 78, 248, 209, 243, 227, 178, 237, 204, 24,
    22, 51, 80, 88, 38, 243, 200, 44, 134, 47, 227, 0],
   -888231841760472402560479602153859860743084622963078332707306851994003020894088653⟩

/-- The 32 bytes of the X-coordinate of `G`. -/
def rG : List Nat :=
  [121, 190, 102, 126, 249, 220, 187, 172, 85, 160, 98, 149, 206, 135, 11, 7, 2, 155, 252, 219,
   45, 206, 40, 217, 89, 242, 129, 91, 22, 248, 23, 152]

/-- The value the recovery formula of the specification gives for `a`:
`(s2 - s1) * (h1 - h2)⁻¹ mod n`, the inverse taken modulo the prime `n`. -/
def recoverSpecA (n s1 s2 h1 h2 : Int) : Int :=
  ((s2 - s1) * (powMod ((h1 - h2) % n).toNat (n.toNat - 2) n.toNat : Nat)) % n

/-- A committed-R key with `k = 153`, whose `k * G` has an even Y. -/
def keyDemo : committed_r_key openssl.Point :=
  ⟨0x1F2E3D4C5B6A79880123456789ABCDEF0FEDCBA9876543210011223344556677, 153,
   ⟨EC_POINT_mul openssl none openssl.G
      0x1F2E3D4C5B6A79880123456789ABCDEF0FEDCBA9876543210011223344556677, 0 :: r153⟩⟩

/-- The committed-R key `a = 1`, `k = 1`: `A = G` and `r` the 32 bytes of the X-coordinate of
`G`, whose Y is even. -/
def keyG : committed_r_key openssl.Point := ⟨1, 1, ⟨openssl.G, rG⟩⟩

/-- A public key carrying the `r` of `keyG` and another point, `A = 2 * G`. -/
def pubOther : committed_r_pubkey openssl.Point := ⟨EC_POINT_mul openssl none openssl.G 2, rG⟩

/-- Modelled from the spec: a canonical encoding of a public-key point (section 6), here the
compressed one, for the examples (`multisig.c` is not among the sources): the byte `0x02` or `0x03` by the parity of Y,
then X on 32 bytes; a single zero byte for the point at infinity. -/
def secpEncode : Option (Nat × Nat) → List Nat
  | none => [0]
  | some (x, y) => (2 + y % 2) :: beBytes 32 x

/-- Modelled from the spec: the point a committed-R public key publishes through its `r`, for
the examples (`multisig.c` is not among the sources): the point of secp256k1 with the
X-coordinate given on 32 bytes and an even Y, when there is one; the square root is the power
`(p + 1) / 4`. -/
def secpLiftX (r : List Nat) : Option (Option (Nat × Nat)) :=
  let x := beNat (r.take 32)
  let c := (x * x % secpP * x + 7) % secpP
  let y := powMod c ((secpP + 1) / 4) secpP
  if x < secpP ∧ y * y % secpP = c then some (some (x, if y % 2 = 0 then y else secpP - y))
  else none

/-- Modelled from the spec: the choices of `musig_env` on secp256k1 for the examples, with
compressed points. -/
def opensslMusig : musig_env openssl := ⟨secpEncode, secpLiftX⟩

/-- A committed-R key with `a = 11` and `k = 2`; `r` is the X-coordinate of `2 * G`, whose Y
is even. -/
def keyM1 : committed_r_key openssl.Point :=
  ⟨11, 2, ⟨EC_POINT_mul openssl none openssl.G 11,
    [198, 4, 127, 148, 65, 237, 125, 109, 48, 69, 64, 110, 149, 192, 124, 216, 92, 119, 142, 75,
     140, 239, 60, 167, 171, 172, 9, 185, 92, 112, 158, 229]⟩⟩

/-- A committed-R key with `a = 22` and `k = 151`; `r` is the X-coordinate of `151 * G`, whose
Y is even. -/
def keyM2 : committed_r_key openssl.Point :=
  ⟨22, 151, ⟨EC_POINT_mul openssl none openssl.G 22,
    [175, 138, 221, 191, 43, 102, 28, 138, 108, 99, 40, 101, 94, 185, 102, 81, 37, 32, 7, 216,
     197, 234, 49, 190, 74, 209, 150, 222, 140, 226, 19, 31]⟩⟩

/-- The `r*` of the keys `keyM1` and `keyM2`: the X-coordinate `x153` of `153 * G` on 32
bytes; it takes 31, so the first byte is the padding. -/
def rM12 : List Nat :=
  [0, 227, 174, 25, 116, 86, 108, 160, 108, 197, 22, 212, 126, 15, 177, 101, 166, 116, 163, 218,
   188, 252, 161, 94, 114, 47, 14, 52, 80, 244, 88, 137]

/-- The partial signature of `keyM1` on `"hello"` against the keys `keyM1`, `keyM2`. -/
def sigM1 : schnorr_sig :=
  ⟨rM12, 13966117294542919334333478062676347355110364482850494664144689555608650636773⟩

/-- The partial signature of `keyM2` on `"hello"` against the keys `keyM1`, `keyM2`. -/
def sigM2 : schnorr_sig :=
  ⟨rM12, 12377850670195725273648697431765155891971896699533120778446098537647114300489⟩

/-- The combined public key `A*` of the keys `keyM1`, `keyM2`. -/
def pubM12 : openssl.Point :=
  some (37205101144554810544267172130470416417651936622103312195698871285830241144787,
    5225792053729073882420108088330484223818816696920109367158738352287386483499)

/-- The coefficient `a_1` of the public key of `keyM1` in a list with a key of `A = 22 * G`. -/
def coeffM1 : Int :=
  64845595652710281530881153695310117960454519936779890125703946784253343421557

/-- The coefficient `a_2` of a public key with `A = 22 * G` in a list after that of `keyM1`. -/
def coeffM2 : Int :=
  48814565869888953715693540030877619763431037688005906648189358284613744992408

/-- The hash `gen_h` accepts for `"hello"` against the `r` of `sig153`. -/
def hashHelloSig153 : Int :=
  38777728596872136084947046313657757891580296446943809539754645056981248372419

/-- The hash `gen_h` accepts for `"hellO"` against the `r` of `sig1158`. -/
def hashHellOSig1158 : Int :=
  71950736473104285343092717873945715734555254999034291835342798865451844543871

/-- The hash `gen_h` accepts for `"hello"` against `rM12`. -/
def hashHelloM12 : Int :=
  71496148629086832761799431549357884817388904009962930234002405184054777192368

/-! ## The curve over the prime field, for the proofs -/

/-- The curve secp256k1, `y^2 = x^3 + 7` over the field with `secpP` elements. -/
def secpW : WeierstrassCurve (ZMod secpP) := ⟨0, 0, 0, 0, 7⟩

/-- The representative of a point in Jacobian coordinates over the field. -/
def jacVec (J : Jac) : Fin 3 → ZMod secpP :=
  ![(J.X : ZMod secpP), (J.Y : ZMod secpP), (J.Z : ZMod secpP)]

/-- The representative of an affine point in Jacobian coordinates over the field. -/
def affVec (x y : Nat) : Fin 3 → ZMod secpP := ![(x : ZMod secpP), (y : ZMod secpP), 1]

/-- The representative in Jacobian coordinates of an affine pair, or of `none` for infinity. -/
def toVec : Option (Nat × Nat) → Fin 3 → ZMod secpP
  | none => ![1, 1, 0]
  | some (x, y) => affVec x y

/-- A point of secp256k1 in canonical form: coordinates below the field prime, on the curve. -/
def Valid : Option (Nat × Nat) → Prop
  | none => True
  | some (x, y) => x < secpP ∧ y < secpP ∧ secpW.toJacobian.Nonsingular (affVec x y)

/-! ## Basic facts -/

theorem BN_cmp_ne_neg_one (a b : Int) : BN_cmp a b ≠ -1 ↔ b ≤ a := by
  unfold BN_cmp
  split_ifs with h1 h2
  · simp; omega
  · simp; omega
  · simp; omega

theorem bn2binAux_length_le (fuel x : Nat) (acc : List Nat) :
    acc.length ≤ (bn2binAux fuel x acc).length := by
  induction fuel generalizing x acc with
  | zero => simp [bn2binAux]
  | succ n ih =>
    simp only [bn2binAux]
    split_ifs
    · exact le_rfl
    · exact le_trans (by simp) (ih _ _)

theorem BN_bn2bin_length_pos (x : Nat) (hx : x ≠ 0) : 0 < (BN_bn2bin (x : Int)).length := by
  obtain ⟨n, rfl⟩ := Nat.exists_eq_succ_of_ne_zero hx
  simp only [BN_bn2bin, Int.natAbs_ofNat, bn2binAux, Nat.succ_ne_zero, if_false]
  exact lt_of_lt_of_le (by simp) (bn2binAux_length_le _ _ _)

theorem gen_r_emit_of_ne_zero (r : List Nat) (k : Int) (x : Nat) (hx : x ≠ 0) :
    gen_r_emit r k x = some (writeBuf r (BN_bn2bin (x : Int)), k) := by
  have h := BN_bn2bin_length_pos x hx
  unfold gen_r_emit
  rw [if_neg (by omega)]

/-- The code `gen_h` returns is 1 or -1, never 0. -/
theorem gen_h_code (L : Lib) (msg r : List Nat) :
    (gen_h L msg r).1 = 1 ∨ (gen_h L msg r).1 = -1 := by
  unfold gen_h
  simp only
  split_ifs <;> simp

theorem beBytes_length : ∀ (len x : Nat), (beBytes len x).length = len
  | 0, _ => rfl
  | len + 1, x => by simp [beBytes, beBytes_length len]

theorem sha256Rounds_length : ∀ (kw : List (Nat × Nat)) (a b c d e f g h : Nat),
    (sha256Rounds kw a b c d e f g h).length = 8
  | [], _, _, _, _, _, _, _, _ => rfl
  | _ :: rest, a, b, c, d, e, f, g, h => by
    simp only [sha256Rounds]
    exact sha256Rounds_length rest _ _ _ _ _ _ _ _

theorem sha256Block_length (hs block : List Nat) (h : hs.length = 8) :
    (sha256Block hs block).length = 8 := by
  match hs, h with
  | [a, b, c, d, e, f, g, h'], _ =>
    simp only [sha256Block, List.length_zipWith, sha256Rounds_length]
    rfl

theorem foldl_sha256Block_length : ∀ (bs : List (List Nat)) (hs : List Nat), hs.length = 8 →
    (bs.foldl sha256Block hs).length = 8
  | [], _, h => h
  | b :: bs, hs, h => by
    simp only [List.foldl_cons]
    exact foldl_sha256Block_length bs _ (sha256Block_length hs b h)

theorem flatten_beBytes_length : ∀ (hs : List Nat),
    ((hs.map (beBytes 4)).flatten).length = 4 * hs.length
  | [] => rfl
  | x :: xs => by
    simp only [List.map_cons, List.flatten_cons, List.length_append, beBytes_length,
      flatten_beBytes_length xs, List.length_cons]
    omega

/-- A SHA-256 digest has 32 bytes. -/
theorem sha256_length (msg : List Nat) : (sha256 msg).length = 32 := by
  unfold sha256
  simp only
  rw [flatten_beBytes_length, foldl_sha256Block_length _ sha256Init rfl]

/-- Only the first 32 bytes of `r` enter the hash (`memcpy(&payload, r, 32)`). -/
theorem gen_h_take (L : Lib) (msg r : List Nat) : gen_h L msg (r.take 32) = gen_h L msg r := by
  unfold gen_h
  simp only [List.take_take, min_self]

/-- With enough fuel the digits of `x` do not depend on the fuel, and are put before the
accumulator. -/
theorem bn2binAux_eq (x : Nat) : ∀ (fuel : Nat) (acc : List Nat), x ≤ fuel →
    bn2binAux fuel x acc = bn2binAux x x [] ++ acc := by
  induction x using Nat.strong_induction_on with
  | _ x ih =>
    intro fuel acc h
    by_cases hx : x = 0
    · subst hx
      cases fuel <;> simp [bn2binAux]
    · obtain ⟨g, rfl⟩ : ∃ g, fuel = g + 1 := ⟨fuel - 1, by omega⟩
      obtain ⟨x', hx'⟩ : ∃ x', x = x' + 1 := ⟨x - 1, by omega⟩
      have hd : x / 256 < x := Nat.div_lt_self (by omega) (by decide)
      have e1 : bn2binAux (g + 1) x acc = bn2binAux g (x / 256) (x % 256 :: acc) := by
        simp only [bn2binAux, if_neg hx]
      have e2 : bn2binAux x x [] = bn2binAux x' (x / 256) [x % 256] := by
        conv_lhs => rw [hx']
        simp only [bn2binAux, ← hx', if_neg hx]
      rw [e1, e2, ih _ hd g _ (by omega), ih _ hd x' _ (by omega)]
      simp

/-- The digits `BN_bn2bin` writes for a nonzero number: those of the quotient by 256, then the
last byte. -/
theorem bn2bin_step (x : Nat) (hx : x ≠ 0) :
    bn2binAux x x [] = bn2binAux (x / 256) (x / 256) [] ++ [x % 256] := by
  obtain ⟨x', hx'⟩ : ∃ x', x = x' + 1 := ⟨x - 1, by omega⟩
  have hd : x / 256 < x := Nat.div_lt_self (by omega) (by decide)
  have e2 : bn2binAux x x [] = bn2binAux x' (x / 256) [x % 256] := by
    conv_lhs => rw [hx']
    simp only [bn2binAux, ← hx', if_neg hx]
  rw [e2, bn2binAux_eq _ x' _ (by omega)]

theorem beNat_append_single (bs : List Nat) (b : Nat) :
    beNat (bs ++ [b]) = beNat bs * 256 + b % 256 := by
  simp [beNat, List.foldl_append]

/-- The bytes `BN_bn2bin` writes decode to the number. -/
theorem beNat_bn2bin (x : Nat) : beNat (bn2binAux x x []) = x := by
  induction x using Nat.strong_induction_on with
  | _ x ih =>
    by_cases hx : x = 0
    · subst hx; rfl
    · have hd : x / 256 < x := Nat.div_lt_self (by omega) (by decide)
      rw [bn2bin_step x hx, beNat_append_single, ih _ hd, Nat.mod_mod]
      omega

/-- A number whose `BN_bn2bin` digits fill `len` bytes has them as its padded encoding. -/
theorem beBytes_eq_bn2bin : ∀ (len x : Nat), (bn2binAux x x []).length = len →
    beBytes len x = bn2binAux x x []
  | 0, x, h => by
    rw [List.length_eq_zero] at h
    rw [h]; rfl
  | len + 1, x, h => by
    have hx : x ≠ 0 := by
      rintro rfl
      simp [bn2binAux] at h
    rw [bn2bin_step x hx] at h ⊢
    simp only [List.length_append, List.length_singleton, add_left_inj] at h
    simp only [beBytes]
    rw [beBytes_eq_bn2bin len (x / 256) h]

theorem BN_bn2bin_natCast (x : Nat) : BN_bn2bin (x : Int) = bn2binAux x x [] := by
  simp [BN_bn2bin]

/-- The first bytes of a buffer after `BN_bn2bin` wrote a number decode to that number. -/
theorem BN_bin2bn_writeBuf (r0 : List Nat) (x : Nat) :
    BN_bin2bn (writeBuf r0 (BN_bn2bin (x : Int))) (BN_bn2bin (x : Int)).length = x := by
  unfold BN_bin2bn writeBuf
  rw [List.take_left', BN_bn2bin_natCast, beNat_bn2bin]
  rfl

/-! ## The field prime is prime -/

theorem powModAux_eq (m : Nat) : ∀ (fuel b e acc : Nat), e ≤ fuel → acc % m = acc →
    powModAux fuel b e m acc = acc * b ^ e % m := by
  intro fuel
  induction fuel with
  | zero =>
    intro b e acc he hacc
    have : e = 0 := by omega
    subst this
    simp [powModAux, hacc]
  | succ n ih =>
    intro b e acc he hacc
    simp only [powModAux]
    by_cases h0 : e = 0
    · subst h0; simp [hacc]
    · rw [if_neg h0]
      have hle : e / 2 ≤ n := by omega
      have hsq : (b * b % m) ^ (e / 2) % m = b ^ (2 * (e / 2)) % m := by
        rw [← Nat.pow_mod, pow_mul, pow_two]
      by_cases hodd : e % 2 = 1
      · rw [if_pos hodd, ih _ _ _ hle (Nat.mod_mod _ _)]
        have he2 : e = 2 * (e / 2) + 1 := by omega
        conv_rhs => rw [he2, pow_succ, ← mul_assoc, mul_right_comm, Nat.mul_mod, ← hsq]
        rw [Nat.mul_mod (acc * b % m), Nat.mod_mod]
      · rw [if_neg hodd, ih _ _ _ hle hacc]
        have he2 : e = 2 * (e / 2) := by omega
        conv_rhs => rw [he2, Nat.mul_mod, ← hsq]
        rw [Nat.mul_mod acc, hacc]

theorem powMod_eq (b e m : Nat) : powMod b e m = b ^ e % m := by
  unfold powMod
  rw [powModAux_eq m e (b % m) e (1 % m) le_rfl (Nat.mod_mod _ _)]
  rw [Nat.mul_mod, Nat.mod_mod, ← Nat.pow_mod, ← Nat.mul_mod, one_mul]

/-- Lucas test with a certificate: a base `a` of order `p - 1` modulo `p`. -/
theorem prime_of_cert (p a : Nat) (fs : List (Nat × Nat)) (hp : 1 < p)
    (hprod : (fs.map (fun f => f.1 ^ f.2)).prod = p - 1)
    (hfs : ∀ f ∈ fs, f.1.Prime ∧ powMod a ((p - 1) / f.1) p ≠ 1)
    (ha : powMod a (p - 1) p = 1) : p.Prime := by
  have h1 : 1 % p = 1 := Nat.mod_eq_of_lt hp
  have cast_iff : ∀ e : Nat, ((a : ZMod p) ^ e = 1) ↔ powMod a e p = 1 := by
    intro e
    rw [powMod_eq]
    have := ZMod.natCast_eq_natCast_iff' (a ^ e) 1 p
    rw [h1] at this
    rw [← this]
    push_cast
    rfl
  apply lucas_primality p (a : ZMod p) ((cast_iff _).2 ha)
  intro q hq hdvd
  rw [← hprod] at hdvd
  obtain ⟨x, hx, hqx⟩ := (Prime.dvd_prod_iff hq.prime).1 hdvd
  obtain ⟨f, hf, rfl⟩ := List.mem_map.1 hx
  have hqf : q = f.1 := (Nat.prime_dvd_prime_iff_eq hq (hfs f hf).1).1 (hq.dvd_of_dvd_pow hqx)
  subst hqf
  intro h
  exact (hfs f hf).2 ((cast_iff _).1 h)

set_option maxRecDepth 1000000 in
/-- The field prime of secp256k1 is prime: a chain of Lucas certificates, one for each prime
factor met on the way down from `secpP - 1`. -/
theorem secpP_prime : Nat.Prime secpP := by
  have prime_13441 : Nat.Prime 13441 :=
    prime_of_cert 13441 11
      [(2, 7), (3, 1), (5, 1), (7, 1)]
      (by decide) (by decide!)
      (by
        simp only [List.forall_mem_cons, List.not_mem_nil, false_implies, implies_true, and_true]
        exact
          ⟨⟨Nat.prime_two, by decide!⟩, ⟨Nat.prime_three, by decide!⟩, ⟨by norm_num, by decide!⟩,
           ⟨by norm_num, by decide!⟩⟩)
      (by decide!)
  have prime_7723 : Nat.Prime 7723 :=
    prime_of_cert 7723 3
      [(2, 1), (3, 3), (11, 1), (13, 1)]
      (by decide) (by decide!)
      (by
        simp only [List.forall_mem_cons, List.not_mem_nil, false_implies, implies_true, and_true]
        exact
          ⟨⟨Nat.prime_two, by decide!⟩, ⟨Nat.prime_three, by decide!⟩, ⟨by norm_num, by decide!⟩,
           ⟨by norm_num, by decide!⟩⟩)
      (by decide!)
  have prime_5323 : Nat.Prime 5323 :=
    prime_of_cert 5323 5
      [(2, 1), (3, 1), (887, 1)]
      (by decide) (by decide!)
      (by
        simp only [List.forall_mem_cons, List.not_mem_nil, false_implies, implies_true, and_true]
        exact
          ⟨⟨Nat.prime_two, by decide!⟩, ⟨Nat.prime_three, by decide!⟩, ⟨by norm_num, by decide!⟩⟩)
      (by decide!)
  have prime_2621 : Nat.Prime 2621 :=
    prime_of_cert 2621 2
      [(2, 2), (5, 1), (131, 1)]
      (by decide) (by decide!)
      (by
        simp only [List.forall_mem_cons, List.not_mem_nil, false_implies, implies_true, and_true]
        exact
          ⟨⟨Nat.prime_two, by decide!⟩, ⟨by norm_num, by decide!⟩, ⟨by norm_num, by decide!⟩⟩)
      (by decide!)
  have prime_24809 : Nat.Prime 24809 :=
    prime_of_cert 24809 6
      [(2, 3), (7, 1), (443, 1)]
      (by decide) (by decide!)
      (by
        simp only [List.forall_mem_cons, List.not_mem_nil, false_implies, implies_true, and_true]
        exact
          ⟨⟨Nat.prime_two, by decide!⟩, ⟨by norm_num, by decide!⟩, ⟨by norm_num, by decide!⟩⟩)
      (by decide!)
  have prime_1373 : Nat.Prime 1373 :=
    prime_of_cert 1373 2
      [(2, 2), (7, 3)]
      (by decide) (by decide!)
      (by
        simp only [List.forall_mem_cons, List.not_mem_nil, false_implies, implies_true, and_true]
        exact
          ⟨⟨Nat.prime_two, by decide!⟩, ⟨by norm_num, by decide!⟩⟩)
      (by decide!)
  have prime_13331831 : Nat.Prime 13331831 :=
    prime_of_cert 13331831 13
      [(2, 1), (5, 1), (971, 1), (1373, 1)]
      (by decide) (by decide!)
      (by
        simp only [List.forall_mem_cons, List.not_mem_nil, false_implies, implies_true, and_true]
        exact
          ⟨⟨Nat.prime_two, by decide!⟩, ⟨by norm_num, by decide!⟩, ⟨by norm_num, by decide!⟩,
           ⟨prime_1373, by decide!⟩⟩)
      (by decide!)
  have prime_173378833005251801 : Nat.Prime 173378833005251801 :=
    prime_of_cert 173378833005251801 6
      [(2, 3), (5, 2), (2621, 1), (24809, 1), (13331831, 1)]
      (by decide) (by decide!)
      (by
        simp only [List.forall_mem_cons, List.not_mem_nil, false_implies, implies_true, and_true]
        exact
          ⟨⟨Nat.prime_two, by decide!⟩, ⟨by norm_num, by decide!⟩, ⟨prime_2621, by decide!⟩,
           ⟨prime_24809, by decide!⟩, ⟨prime_13331831, by decide!⟩⟩)
      (by decide!)
  have prime_22149492674086928081353 : Nat.Prime 22149492674086928081353 :=
    prime_of_cert 22149492674086928081353 5
      [(2, 3), (3, 1), (5323, 1), (173378833005251801, 1)]
      (by decide) (by decide!)
      (by
        simp only [List.forall_mem_cons, List.not_mem_nil, false_implies, implies_true, and_true]
        exact
          ⟨⟨Nat.prime_two, by decide!⟩, ⟨Nat.prime_three, by decide!⟩, ⟨prime_5323, by decide!⟩,
           ⟨prime_173378833005251801, by decide!⟩⟩)
      (by decide!)
  have prime_132896956044521568488119 : Nat.Prime 132896956044521568488119 :=
    prime_of_cert 132896956044521568488119 6
      [(2, 1), (3, 1), (22149492674086928081353, 1)]
      (by decide) (by decide!)
      (by
        simp only [List.forall_mem_cons, List.not_mem_nil, false_implies, implies_true, and_true]
        exact
          ⟨⟨Nat.prime_two, by decide!⟩, ⟨Nat.prime_three, by decide!⟩,
           ⟨prime_22149492674086928081353, by decide!⟩⟩)
      (by decide!)
  have prime_1627 : Nat.Prime 1627 :=
    prime_of_cert 1627 3
      [(2, 1), (3, 1), (271, 1)]
      (by decide) (by decide!)
      (by
        simp only [List.forall_mem_cons, List.not_mem_nil, false_implies, implies_true, and_true]
        exact
          ⟨⟨Nat.prime_two, by decide!⟩, ⟨Nat.prime_three, by decide!⟩, ⟨by norm_num, by decide!⟩⟩)
      (by decide!)
  have prime_2657 : Nat.Prime 2657 :=
    prime_of_cert 2657 3
      [(2, 5), (83, 1)]
      (by decide) (by decide!)
      (by
        simp only [List.forall_mem_cons, List.not_mem_nil, false_implies, implies_true, and_true]
        exact
          ⟨⟨Nat.prime_two, by decide!⟩, ⟨by norm_num, by decide!⟩⟩)
      (by decide!)
  have prime_4423 : Nat.Prime 4423 :=
    prime_of_cert 4423 3
      [(2, 1), (3, 1), (11, 1), (67, 1)]
      (by decide) (by decide!)
      (by
        simp only [List.forall_mem_cons, List.not_mem_nil, false_implies, implies_true, and_true]
        exact
          ⟨⟨Nat.prime_two, by decide!⟩, ⟨Nat.prime_three, by decide!⟩, ⟨by norm_num, by decide!⟩,
           ⟨by norm_num, by decide!⟩⟩)
      (by decide!)
  have prime_41201 : Nat.Prime 41201 :=
    prime_of_cert 41201 3
      [(2, 4), (5, 2), (103, 1)]
      (by decide) (by decide!)
      (by
        simp only [List.forall_mem_cons, List.not_mem_nil, false_implies, implies_true, and_true]
        exact
          ⟨⟨Nat.prime_two, by decide!⟩, ⟨by norm_num, by decide!⟩, ⟨by norm_num, by decide!⟩⟩)
      (by decide!)
  have prime_96557 : Nat.Prime 96557 :=
    prime_of_cert 96557 2
      [(2, 2), (101, 1), (239, 1)]
      (by decide) (by decide!)
      (by
        simp only [List.forall_mem_cons, List.not_mem_nil, false_implies, implies_true, and_true]
        exact
          ⟨⟨Nat.prime_two, by decide!⟩, ⟨by norm_num, by decide!⟩, ⟨by norm_num, by decide!⟩⟩)
      (by decide!)
  have prime_20113 : Nat.Prime 20113 :=
    prime_of_cert 20113 10
      [(2, 4), (3, 1), (419, 1)]
      (by decide) (by decide!)
      (by
        simp only [List.forall_mem_cons, List.not_mem_nil, false_implies, implies_true, and_true]
        exact
          ⟨⟨Nat.prime_two, by decide!⟩, ⟨Nat.prime_three, by decide!⟩, ⟨by norm_num, by decide!⟩⟩)
      (by decide!)
  have prime_1206781 : Nat.Prime 1206781 :=
    prime_of_cert 1206781 10
      [(2, 2), (3, 1), (5, 1), (20113, 1)]
      (by decide) (by decide!)
      (by
        simp only [List.forall_mem_cons, List.not_mem_nil, false_implies, implies_true, and_true]
        exact
          ⟨⟨Nat.prime_two, by decide!⟩, ⟨Nat.prime_three, by decide!⟩, ⟨by norm_num, by decide!⟩,
           ⟨prime_20113, by decide!⟩⟩)
      (by decide!)
  have prime_7240687 : Nat.Prime 7240687 :=
    prime_of_cert 7240687 3
      [(2, 1), (3, 1), (1206781, 1)]
      (by decide) (by decide!)
      (by
        simp only [List.forall_mem_cons, List.not_mem_nil, false_implies, implies_true, and_true]
        exact
          ⟨⟨Nat.prime_two, by decide!⟩, ⟨Nat.prime_three, by decide!⟩,
           ⟨prime_1206781, by decide!⟩⟩)
      (by decide!)
  have prime_107590001 : Nat.Prime 107590001 :=
    prime_of_cert 107590001 3
      [(2, 4), (5, 4), (7, 1), (29, 1), (53, 1)]
      (by decide) (by decide!)
      (by
        simp only [List.forall_mem_cons, List.not_mem_nil, false_implies, implies_true, and_true]
        exact
          ⟨⟨Nat.prime_two, by decide!⟩, ⟨by norm_num, by decide!⟩, ⟨by norm_num, by decide!⟩,
           ⟨by norm_num, by decide!⟩, ⟨by norm_num, by decide!⟩⟩)
      (by decide!)
  have prime_255515944373312847190720520512484175977 :
      Nat.Prime 255515944373312847190720520512484175977 :=
    prime_of_cert 255515944373312847190720520512484175977 3
      [(2, 3), (7, 2), (11, 1), (1627, 1), (2657, 1), (4423, 1), (41201, 1), (96557, 1),
        (7240687, 1), (107590001, 1)]
      (by decide) (by decide!)
      (by
        simp only [List.forall_mem_cons, List.not_mem_nil, false_implies, implies_true, and_true]
        exact
          ⟨⟨Nat.prime_two, by decide!⟩, ⟨by norm_num, by decide!⟩, ⟨by norm_num, by decide!⟩,
           ⟨prime_1627, by decide!⟩, ⟨prime_2657, by decide!⟩, ⟨prime_4423, by decide!⟩,
           ⟨prime_41201, by decide!⟩, ⟨prime_96557, by decide!⟩, ⟨prime_7240687, by decide!⟩,
           ⟨prime_107590001, by decide!⟩⟩)
      (by decide!)
  have prime_205115282021455665897114700593932402728804164701536103180137503955397371 :
      Nat.Prime 205115282021455665897114700593932402728804164701536103180137503955397371 :=
    prime_of_cert 205115282021455665897114700593932402728804164701536103180137503955397371 10
      [(2, 1), (3, 1), (5, 1), (29, 2), (31, 1), (7723, 1), (132896956044521568488119, 1),
        (255515944373312847190720520512484175977, 1)]
      (by decide) (by decide!)
      (by
        simp only [List.forall_mem_cons, List.not_mem_nil, false_implies, implies_true, and_true]
        exact
          ⟨⟨Nat.prime_two, by decide!⟩, ⟨Nat.prime_three, by decide!⟩, ⟨by norm_num, by decide!⟩,
           ⟨by norm_num, by decide!⟩, ⟨by norm_num, by decide!⟩, ⟨prime_7723, by decide!⟩,
           ⟨prime_132896956044521568488119, by decide!⟩,
           ⟨prime_255515944373312847190720520512484175977, by decide!⟩⟩)
      (by decide!)
  exact
    prime_of_cert secpP 3
      [(2, 1), (3, 1), (7, 1), (13441, 1),
        (205115282021455665897114700593932402728804164701536103180137503955397371, 1)]
      (by decide) (by decide!)
      (by
        simp only [List.forall_mem_cons, List.not_mem_nil, false_implies, implies_true, and_true]
        exact
          ⟨⟨Nat.prime_two, by decide!⟩, ⟨Nat.prime_three, by decide!⟩, ⟨by norm_num, by decide!⟩,
           ⟨prime_13441, by decide!⟩,
           ⟨prime_205115282021455665897114700593932402728804164701536103180137503955397371, by decide!⟩⟩)
      (by decide!)

/-! ## The group order is prime -/

set_option maxRecDepth 1000000 in
/-- The group order of secp256k1 is prime: a chain of Lucas certificates, one for each prime
factor met on the way down from `secpN - 1`. -/
theorem secpN_prime : Nat.Prime secpN := by
  have prime_16699 : Nat.Prime 16699 :=
    prime_of_cert 16699 3
      [(2, 1), (3, 1), (11, 2), (23, 1)]
      (by decide) (by decide!)
      (by
        simp only [List.forall_mem_cons, List.not_mem_nil, false_implies, implies_true, and_true]
        exact
          ⟨⟨Nat.prime_two, by decide!⟩, ⟨Nat.prime_three, by decide!⟩, ⟨by norm_num, by decide!⟩,
           ⟨by norm_num, by decide!⟩⟩)
      (by decide!)
  have prime_2861 : Nat.Prime 2861 :=
    prime_of_cert 2861 2
      [(2, 2), (5, 1), (11, 1), (13, 1)]
      (by decide) (by decide!)
      (by
        simp only [List.forall_mem_cons, List.not_mem_nil, false_implies, implies_true, and_true]
        exact
          ⟨⟨Nat.prime_two, by decide!⟩, ⟨by norm_num, by decide!⟩, ⟨by norm_num, by decide!⟩,
           ⟨by norm_num, by decide!⟩⟩)
      (by decide!)
  have prime_85831 : Nat.Prime 85831 :=
    prime_of_cert 85831 3
      [(2, 1), (3, 1), (5, 1), (2861, 1)]
      (by decide) (by decide!)
      (by
        simp only [List.forall_mem_cons, List.not_mem_nil, false_implies, implies_true, and_true]
        exact
          ⟨⟨Nat.prime_two, by decide!⟩, ⟨Nat.prime_three, by decide!⟩, ⟨by norm_num, by decide!⟩,
           ⟨prime_2861, by decide!⟩⟩)
      (by decide!)
  have prime_2011 : Nat.Prime 2011 :=
    prime_of_cert 2011 3
      [(2, 1), (3, 1), (5, 1), (67, 1)]
      (by decide) (by decide!)
      (by
        simp only [List.forall_mem_cons, List.not_mem_nil, false_implies, implies_true, and_true]
        exact
          ⟨⟨Nat.prime_two, by decide!⟩, ⟨Nat.prime_three, by decide!⟩, ⟨by norm_num, by decide!⟩,
           ⟨by norm_num, by decide!⟩⟩)
      (by decide!)
  have prime_4681609 : Nat.Prime 4681609 :=
    prime_of_cert 4681609 23
      [(2, 3), (3, 1), (97, 1), (2011, 1)]
      (by decide) (by decide!)
      (by
        simp only [List.forall_mem_cons, List.not_mem_nil, false_implies, implies_true, and_true]
        exact
          ⟨⟨Nat.prime_two, by decide!⟩, ⟨Nat.prime_three, by decide!⟩, ⟨by norm_num, by decide!⟩,
           ⟨prime_2011, by decide!⟩⟩)
      (by decide!)
  have prime_107361793816595537 : Nat.Prime 107361793816595537 :=
    prime_of_cert 107361793816595537 3
      [(2, 4), (16699, 1), (85831, 1), (4681609, 1)]
      (by decide) (by decide!)
      (by
        simp only [List.forall_mem_cons, List.not_mem_nil, false_implies, implies_true, and_true]
        exact
          ⟨⟨Nat.prime_two, by decide!⟩, ⟨prime_16699, by decide!⟩, ⟨prime_85831, by decide!⟩,
           ⟨prime_4681609, by decide!⟩⟩)
      (by decide!)
  have prime_4051 : Nat.Prime 4051 :=
    prime_of_cert 4051 10
      [(2, 1), (3, 4), (5, 2)]
      (by decide) (by decide!)
      (by
        simp only [List.forall_mem_cons, List.not_mem_nil, false_implies, implies_true, and_true]
        exact
          ⟨⟨Nat.prime_two, by decide!⟩, ⟨Nat.prime_three, by decide!⟩, ⟨by norm_num, by decide!⟩⟩)
      (by decide!)
  have prime_120233 : Nat.Prime 120233 :=
    prime_of_cert 120233 3
      [(2, 3), (7, 1), (19, 1), (113, 1)]
      (by decide) (by decide!)
      (by
        simp only [List.forall_mem_cons, List.not_mem_nil, false_implies, implies_true, and_true]
        exact
          ⟨⟨Nat.prime_two, by decide!⟩, ⟨by norm_num, by decide!⟩, ⟨by norm_num, by decide!⟩,
           ⟨by norm_num, by decide!⟩⟩)
      (by decide!)
  have prime_9349 : Nat.Prime 9349 :=
    prime_of_cert 9349 2
      [(2, 2), (3, 1), (19, 1), (41, 1)]
      (by decide) (by decide!)
      (by
        simp only [List.forall_mem_cons, List.not_mem_nil, false_implies, implies_true, and_true]
        exact
          ⟨⟨Nat.prime_two, by decide!⟩, ⟨Nat.prime_three, by decide!⟩, ⟨by norm_num, by decide!⟩,
           ⟨by norm_num, by decide!⟩⟩)
      (by decide!)
  have prime_44706919 : Nat.Prime 44706919 :=
    prime_of_cert 44706919 6
      [(2, 1), (3, 1), (797, 1), (9349, 1)]
      (by decide) (by decide!)
      (by
        simp only [List.forall_mem_cons, List.not_mem_nil, false_implies, implies_true, and_true]
        exact
          ⟨⟨Nat.prime_two, by decide!⟩, ⟨Nat.prime_three, by decide!⟩, ⟨by norm_num, by decide!⟩,
           ⟨prime_9349, by decide!⟩⟩)
      (by decide!)
  have prime_174723607534414371449 : Nat.Prime 174723607534414371449 :=
    prime_of_cert 174723607534414371449 3
      [(2, 3), (17, 1), (59, 1), (4051, 1), (120233, 1), (44706919, 1)]
      (by decide) (by decide!)
      (by
        simp only [List.forall_mem_cons, List.not_mem_nil, false_implies, implies_true, and_true]
        exact
          ⟨⟨Nat.prime_two, by decide!⟩, ⟨by norm_num, by decide!⟩, ⟨by norm_num, by decide!⟩,
           ⟨prime_4051, by decide!⟩, ⟨prime_120233, by decide!⟩, ⟨prime_44706919, by decide!⟩⟩)
      (by decide!)
  have prime_2731 : Nat.Prime 2731 :=
    prime_of_cert 2731 3
      [(2, 1), (3, 1), (5, 1), (7, 1), (13, 1)]
      (by decide) (by decide!)
      (by
        simp only [List.forall_mem_cons, List.not_mem_nil, false_implies, implies_true, and_true]
        exact
          ⟨⟨Nat.prime_two, by decide!⟩, ⟨Nat.prime_three, by decide!⟩, ⟨by norm_num, by decide!⟩,
           ⟨by norm_num, by decide!⟩, ⟨by norm_num, by decide!⟩⟩)
      (by decide!)
  have prime_305873 : Nat.Prime 305873 :=
    prime_of_cert 305873 3
      [(2, 4), (7, 1), (2731, 1)]
      (by decide) (by decide!)
      (by
        simp only [List.forall_mem_cons, List.not_mem_nil, false_implies, implies_true, and_true]
        exact
          ⟨⟨Nat.prime_two, by decide!⟩, ⟨by norm_num, by decide!⟩, ⟨prime_2731, by decide!⟩⟩)
      (by decide!)
  have prime_1409 : Nat.Prime 1409 :=
    prime_of_cert 1409 3
      [(2, 7), (11, 1)]
      (by decide) (by decide!)
      (by
        simp only [List.forall_mem_cons, List.not_mem_nil, false_implies, implies_true, and_true]
        exact
          ⟨⟨Nat.prime_two, by decide!⟩, ⟨by norm_num, by decide!⟩⟩)
      (by decide!)
  have prime_28181 : Nat.Prime 28181 :=
    prime_of_cert 28181 2
      [(2, 2), (5, 1), (1409, 1)]
      (by decide) (by decide!)
      (by
        simp only [List.forall_mem_cons, List.not_mem_nil, false_implies, implies_true, and_true]
        exact
          ⟨⟨Nat.prime_two, by decide!⟩, ⟨by norm_num, by decide!⟩, ⟨prime_1409, by decide!⟩⟩)
      (by decide!)
  have prime_545358713 : Nat.Prime 545358713 :=
    prime_of_cert 545358713 5
      [(2, 3), (41, 1), (59, 1), (28181, 1)]
      (by decide) (by decide!)
      (by
        simp only [List.forall_mem_cons, List.not_mem_nil, false_implies, implies_true, and_true]
        exact
          ⟨⟨Nat.prime_two, by decide!⟩, ⟨by norm_num, by decide!⟩, ⟨by norm_num, by decide!⟩,
           ⟨prime_28181, by decide!⟩⟩)
      (by decide!)
  have prime_1871 : Nat.Prime 1871 :=
    prime_of_cert 1871 14
      [(2, 1), (5, 1), (11, 1), (17, 1)]
      (by decide) (by decide!)
      (by
        simp only [List.forall_mem_cons, List.not_mem_nil, false_implies, implies_true, and_true]
        exact
          ⟨⟨Nat.prime_two, by decide!⟩, ⟨by norm_num, by decide!⟩, ⟨by norm_num, by decide!⟩,
           ⟨by norm_num, by decide!⟩⟩)
      (by decide!)
  have prime_1627771 : Nat.Prime 1627771 :=
    prime_of_cert 1627771 3
      [(2, 1), (3, 1), (5, 1), (29, 1), (1871, 1)]
      (by decide) (by decide!)
      (by
        simp only [List.forall_mem_cons, List.not_mem_nil, false_implies, implies_true, and_true]
        exact
          ⟨⟨Nat.prime_two, by decide!⟩, ⟨Nat.prime_three, by decide!⟩, ⟨by norm_num, by decide!⟩,
           ⟨by norm_num, by decide!⟩, ⟨prime_1871, by decide!⟩⟩)
      (by decide!)
  have prime_297159362677 : Nat.Prime 297159362677 :=
    prime_of_cert 297159362677 2
      [(2, 2), (3, 2), (11, 1), (461, 1), (1627771, 1)]
      (by decide) (by decide!)
      (by
        simp only [List.forall_mem_cons, List.not_mem_nil, false_implies, implies_true, and_true]
        exact
          ⟨⟨Nat.prime_two, by decide!⟩, ⟨Nat.prime_three, by decide!⟩, ⟨by norm_num, by decide!⟩,
           ⟨by norm_num, by decide!⟩, ⟨prime_1627771, by decide!⟩⟩)
      (by decide!)
  have prime_29047611873442575647497758179 : Nat.Prime 29047611873442575647497758179 :=
    prime_of_cert 29047611873442575647497758179 2
      [(2, 1), (293, 1), (305873, 1), (545358713, 1), (297159362677, 1)]
      (by decide) (by decide!)
      (by
        simp only [List.forall_mem_cons, List.not_mem_nil, false_implies, implies_true, and_true]
        exact
          ⟨⟨Nat.prime_two, by decide!⟩, ⟨by norm_num, by decide!⟩, ⟨prime_305873, by decide!⟩,
           ⟨prime_545358713, by decide!⟩, ⟨prime_297159362677, by decide!⟩⟩)
      (by decide!)
  have prime_341948486974166000522343609283189 : Nat.Prime 341948486974166000522343609283189 :=
    prime_of_cert 341948486974166000522343609283189 2
      [(2, 2), (3, 3), (109, 1), (29047611873442575647497758179, 1)]
      (by decide) (by decide!)
      (by
        simp only [List.forall_mem_cons, List.not_mem_nil, false_implies, implies_true, and_true]
        exact
          ⟨⟨Nat.prime_two, by decide!⟩, ⟨Nat.prime_three, by decide!⟩, ⟨by norm_num, by decide!⟩,
           ⟨prime_29047611873442575647497758179, by decide!⟩⟩)
      (by decide!)
  exact
    prime_of_cert secpN 7
      [(2, 6), (3, 1), (149, 1), (631, 1), (107361793816595537, 1), (174723607534414371449, 1),
       (341948486974166000522343609283189, 1)]
      (by decide) (by decide!)
      (by
        simp only [List.forall_mem_cons, List.not_mem_nil, false_implies, implies_true, and_true]
        exact
          ⟨⟨Nat.prime_two, by decide!⟩, ⟨Nat.prime_three, by decide!⟩, ⟨by norm_num, by decide!⟩,
           ⟨by norm_num, by decide!⟩, ⟨prime_107361793816595537, by decide!⟩,
           ⟨prime_174723607534414371449, by decide!⟩,
           ⟨prime_341948486974166000522343609283189, by decide!⟩⟩)
      (by decide!)

/-! ## secp256k1 as a group: the executable arithmetic against Mathlib's curve -/

section Curve

open WeierstrassCurve.Jacobian

/-- The field prime is prime, as an instance: `ZMod secpP` is a field. -/
instance secpP_fact : Fact (Nat.Prime secpP) := ⟨secpP_prime⟩

theorem cast_fmul (a b : Nat) : ((fmul a b : Nat) : ZMod secpP) = (a : ZMod secpP) * b := by
  unfold fmul
  rw [ZMod.natCast_mod, Nat.cast_mul]

theorem cast_fsub (a b : Nat) : ((fsub a b : Nat) : ZMod secpP) = (a : ZMod secpP) - b := by
  unfold fsub
  have hb : b % secpP ≤ secpP := (Nat.mod_lt _ (by decide)).le
  rw [ZMod.natCast_mod, Nat.cast_add, Nat.cast_sub hb, ZMod.natCast_self, ZMod.natCast_mod]
  ring

theorem cast_secpInv (a : Nat) : ((secpInv a : Nat) : ZMod secpP) = (a : ZMod secpP)⁻¹ := by
  unfold secpInv
  rw [powMod_eq, ZMod.natCast_mod, Nat.cast_pow]
  by_cases ha : (a : ZMod secpP) = 0
  · rw [ha, inv_zero, zero_pow (by decide)]
  · have h1 : (a : ZMod secpP) ^ (secpP - 1) = 1 := ZMod.pow_card_sub_one_eq_one ha
    have h2 : (a : ZMod secpP) ^ (secpP - 2) * a = 1 := by
      rw [← pow_succ]
      exact h1
    exact eq_inv_of_mul_eq_one_left h2

theorem fmul_lt (a b : Nat) : fmul a b < secpP := Nat.mod_lt _ (by decide)
theorem fsub_lt (a b : Nat) : fsub a b < secpP := Nat.mod_lt _ (by decide)

theorem cast_eq_zero_iff (a : Nat) : (a : ZMod secpP) = 0 ↔ a % secpP = 0 := by
  rw [ZMod.natCast_zmod_eq_zero_iff_dvd, Nat.dvd_iff_mod_eq_zero]

theorem cast_inj_of_lt {a b : Nat} (ha : a < secpP) (hb : b < secpP) :
    (a : ZMod secpP) = b ↔ a = b := by
  rw [ZMod.natCast_eq_natCast_iff', Nat.mod_eq_of_lt ha, Nat.mod_eq_of_lt hb]

theorem secpW_disc : secpW.Δ ≠ 0 := by
  have : secpW.Δ = ((secpP - 21168 : Nat) : ZMod secpP) := by
    rw [Nat.cast_sub (by decide), ZMod.natCast_self]
    simp [secpW, WeierstrassCurve.Δ, WeierstrassCurve.b₂, WeierstrassCurve.b₄,
      WeierstrassCurve.b₆, WeierstrassCurve.b₈]
    norm_num
  rw [this, Ne, cast_eq_zero_iff]
  decide

/-- The curve secp256k1 is an elliptic curve. -/
instance secpW_isElliptic : secpW.IsElliptic := ⟨isUnit_iff_ne_zero.2 secpW_disc⟩

theorem jacVec_x (J : Jac) : jacVec J 0 = J.X := rfl
theorem jacVec_y (J : Jac) : jacVec J 1 = J.Y := rfl
theorem jacVec_z (J : Jac) : jacVec J 2 = J.Z := rfl

theorem jacVec_jacDbl (J : Jac) : jacVec (jacDbl J) = secpW.toJacobian.dblXYZ (jacVec J) := by
  ext i
  fin_cases i
  · simp only [jacVec, jacDbl, dblXYZ, dblX, dblU_eq, negY, cast_fmul, cast_fsub, secpW,
      Fin.zero_eta, Matrix.cons_val_zero, Matrix.cons_val_one, Matrix.head_cons,
      Matrix.cons_val_two, Matrix.tail_cons, Nat.cast_ofNat]
    ring
  · simp only [jacVec, jacDbl, dblXYZ, dblY, negDblY, dblX, dblZ, dblU_eq, negY, cast_fmul,
      cast_fsub, secpW,
      Fin.mk_one, Matrix.cons_val_zero, Matrix.cons_val_one, Matrix.head_cons,
      Matrix.cons_val_two, Matrix.tail_cons, Nat.cast_ofNat]
    ring
  · simp only [jacVec, jacDbl, dblXYZ, dblZ, negY, cast_fmul, cast_fsub, secpW,
      Fin.reduceFinMk, Matrix.cons_val_zero, Matrix.cons_val_one, Matrix.head_cons,
      Matrix.cons_val_two, Matrix.tail_cons, Nat.cast_ofNat]
    ring

theorem jacVec_jacAddAff_main (J : Jac) (x y : Nat) (hZ : ¬ J.Z % secpP = 0)
    (hH : ¬ fsub (fmul x (fmul J.Z J.Z)) J.X = 0)
    (hP : secpW.toJacobian.Equation (jacVec J)) (hQ : secpW.toJacobian.Equation (affVec x y)) :
    jacVec (jacAddAff J x y)
      = (-(J.Z : ZMod secpP)) • secpW.toJacobian.addXYZ (jacVec J) (affVec x y) := by
  have hX := addX_eq' hP hQ
  have hY := @negAddY_eq' _ secpW.toJacobian _ (jacVec J) (affVec x y)
  simp only [jacVec, affVec, addZ, Matrix.cons_val_zero, Matrix.cons_val_one, Matrix.head_cons,
      Matrix.cons_val_two, Matrix.tail_cons, secpW, zero_mul, mul_zero, add_zero, sub_zero,
      one_pow, mul_one] at hX hY
  unfold jacAddAff
  rw [if_neg hZ]
  simp only []
  rw [if_neg hH]
  ext i
  fin_cases i
  · simp only [jacVec, affVec, smul_fin3_ext, addXYZ, cast_fmul, cast_fsub, secpW,
      Fin.zero_eta, Matrix.cons_val_zero, Matrix.cons_val_one, Matrix.head_cons,
      Matrix.cons_val_two, Matrix.tail_cons, Nat.cast_ofNat]
    linear_combination (-1 : ZMod secpP) * hX
  · simp only [jacVec, affVec, smul_fin3_ext, addXYZ, addY, negY, cast_fmul, cast_fsub, secpW,
      Fin.mk_one, Matrix.cons_val_zero, Matrix.cons_val_one, Matrix.head_cons,
      Matrix.cons_val_two, Matrix.tail_cons, Nat.cast_ofNat, zero_mul, mul_zero, sub_zero]
    linear_combination (-1 : ZMod secpP) * hY + ((y : ZMod secpP) * J.Z ^ 3 - J.Y) * hX
  · simp only [jacVec, affVec, smul_fin3_ext, addXYZ, addZ, cast_fmul, cast_fsub, secpW,
      Fin.reduceFinMk, Matrix.cons_val_zero, Matrix.cons_val_one, Matrix.head_cons,
      Matrix.cons_val_two, Matrix.tail_cons, Nat.cast_ofNat, one_pow, mul_one]
    ring

theorem fsub_eq_zero_iff (a b : Nat) : fsub a b = 0 ↔ (a : ZMod secpP) = b := by
  have h := cast_eq_zero_iff (fsub a b)
  rw [Nat.mod_eq_of_lt (fsub_lt a b), cast_fsub, sub_eq_zero] at h
  exact h.symm

theorem jacVec_affine (x y : Nat) : jacVec ⟨x, y, 1⟩ = affVec x y := by
  simp [jacVec, affVec]

theorem jacVec_infinity : jacVec ⟨1, 1, 0⟩ = ![1, 1, 0] := by
  simp [jacVec]

theorem jacAddAff_spec (J : Jac) (x y : Nat)
    (hP : secpW.toJacobian.Nonsingular (jacVec J))
    (hQ : secpW.toJacobian.Nonsingular (affVec x y)) :
    secpW.toJacobian.Nonsingular (jacVec (jacAddAff J x y)) ∧
    Point.toAffine secpW.toJacobian (jacVec (jacAddAff J x y))
      = Point.toAffine secpW.toJacobian (jacVec J)
        + Point.toAffine secpW.toJacobian (affVec x y) := by
  have hQz : affVec x y 2 ≠ 0 := by simp [affVec]
  by_cases hZ : J.Z % secpP = 0
  · have hPz : jacVec J 2 = 0 := by rw [jacVec_z, cast_eq_zero_iff]; exact hZ
    have : jacAddAff J x y = ⟨x, y, 1⟩ := by unfold jacAddAff; rw [if_pos hZ]
    rw [this, jacVec_affine, Point.toAffine_of_Z_eq_zero hPz, zero_add]
    exact ⟨hQ, rfl⟩
  · have hPz : jacVec J 2 ≠ 0 := by rw [jacVec_z, Ne, cast_eq_zero_iff]; exact hZ
    by_cases hH : fsub (fmul x (fmul J.Z J.Z)) J.X = 0
    · have hx : jacVec J 0 * affVec x y 2 ^ 2 = affVec x y 0 * jacVec J 2 ^ 2 := by
        have := (fsub_eq_zero_iff _ _).1 hH
        simp only [cast_fmul] at this
        simp only [jacVec, affVec, Matrix.cons_val_zero, Matrix.cons_val_two, Matrix.tail_cons,
          Matrix.head_cons, one_pow, mul_one]
        rw [← this]; ring
      by_cases hR : fsub (fmul y (fmul J.Z (fmul J.Z J.Z))) J.Y = 0
      · have hy : jacVec J 1 * affVec x y 2 ^ 3 = affVec x y 1 * jacVec J 2 ^ 3 := by
          have := (fsub_eq_zero_iff _ _).1 hR
          simp only [cast_fmul] at this
          simp only [jacVec, affVec, Matrix.cons_val_one, Matrix.cons_val_two, Matrix.tail_cons,
            Matrix.head_cons, one_pow, mul_one]
          rw [← this]; ring
        have : jacAddAff J x y = jacDbl ⟨x, y, 1⟩ := by
          unfold jacAddAff; rw [if_neg hZ]; simp only []; rw [if_pos hH, if_pos hR]
        rw [this, jacVec_jacDbl, jacVec_affine, ← add_self,
          Point.toAffine_of_equiv (equiv_of_X_eq_of_Y_eq hPz hQz hx hy)]
        exact ⟨nonsingular_add hQ hQ, Point.toAffine_add hQ hQ⟩
      · have hy : jacVec J 1 * affVec x y 2 ^ 3 ≠ affVec x y 1 * jacVec J 2 ^ 3 := by
          intro h
          apply hR
          rw [fsub_eq_zero_iff]
          simp only [cast_fmul]
          simp only [jacVec, affVec, Matrix.cons_val_one, Matrix.cons_val_two, Matrix.tail_cons,
            Matrix.head_cons, one_pow, mul_one] at h
          rw [h]; ring
        have : jacAddAff J x y = ⟨1, 1, 0⟩ := by
          unfold jacAddAff; rw [if_neg hZ]; simp only []; rw [if_pos hH, if_neg hR]
        rw [this, jacVec_infinity, Point.toAffine_zero, ← Point.toAffine_add hP hQ,
          add_of_Y_ne hP.left hQ.left hPz hQz hx hy,
          Point.toAffine_smul _ (isUnit_addU_of_Y_ne hPz hQz hy), Point.toAffine_zero]
        exact ⟨nonsingular_zero, rfl⟩
    · have hx : jacVec J 0 * affVec x y 2 ^ 2 ≠ affVec x y 0 * jacVec J 2 ^ 2 := by
        intro h
        apply hH
        rw [fsub_eq_zero_iff]
        simp only [cast_fmul]
        simp only [jacVec, affVec, Matrix.cons_val_zero, Matrix.cons_val_two, Matrix.tail_cons,
          Matrix.head_cons, one_pow, mul_one] at h
        rw [h]; ring
      have hu : IsUnit (-(J.Z : ZMod secpP)) := by
        rw [isUnit_iff_ne_zero, neg_ne_zero]; exact hPz
      rw [jacVec_jacAddAff_main J x y hZ hH hP.left hQ.left,
          ← add_of_not_equiv (not_equiv_of_X_ne hx),
        Point.toAffine_smul _ hu, nonsingular_smul _ hu]
      exact ⟨nonsingular_add hP hQ, Point.toAffine_add hP hQ⟩

theorem jacDbl_spec (J : Jac) (hP : secpW.toJacobian.Nonsingular (jacVec J)) :
    secpW.toJacobian.Nonsingular (jacVec (jacDbl J)) ∧
    Point.toAffine secpW.toJacobian (jacVec (jacDbl J))
      = Point.toAffine secpW.toJacobian (jacVec J)
        + Point.toAffine secpW.toJacobian (jacVec J) := by
  rw [jacVec_jacDbl, ← add_self]
  exact ⟨nonsingular_add hP hP, Point.toAffine_add hP hP⟩

theorem toVec_none_eq_zero : Point.toAffine secpW.toJacobian (toVec none) = 0 :=
  Point.toAffine_zero

theorem jacMulAux_spec (k x y : Nat) (hQ : secpW.toJacobian.Nonsingular (affVec x y)) :
    ∀ (i : Nat) (acc : Jac), secpW.toJacobian.Nonsingular (jacVec acc) →
      secpW.toJacobian.Nonsingular (jacVec (jacMulAux k x y i acc)) ∧
      Point.toAffine secpW.toJacobian (jacVec (jacMulAux k x y i acc))
        = 2 ^ i • Point.toAffine secpW.toJacobian (jacVec acc)
          + (k % 2 ^ i) • Point.toAffine secpW.toJacobian (affVec x y) := by
  intro i
  induction i with
  | zero =>
    intro acc hacc
    simp [jacMulAux, Nat.mod_one, hacc]
  | succ i ih =>
    intro acc hacc
    obtain ⟨hd, hdp⟩ := jacDbl_spec acc hacc
    simp only [jacMulAux]
    by_cases hb : k / 2 ^ i % 2 = 1
    · rw [if_pos hb]
      obtain ⟨ha, hap⟩ := jacAddAff_spec (jacDbl acc) x y hd hQ
      obtain ⟨hr, hrp⟩ := ih _ ha
      refine ⟨hr, ?_⟩
      rw [hrp, hap, hdp, Nat.mod_pow_succ, hb]
      module
    · rw [if_neg hb]
      obtain ⟨hr, hrp⟩ := ih _ hd
      have hb0 : k / 2 ^ i % 2 = 0 := by omega
      refine ⟨hr, ?_⟩
      rw [hrp, hdp, Nat.mod_pow_succ, hb0]
      module

theorem bitLenAux_spec : ∀ (fuel k acc : Nat), k ≤ fuel →
    k < 2 ^ (bitLenAux fuel k acc - acc) ∧
    acc ≤ bitLenAux fuel k acc := by
  intro fuel
  induction fuel with
  | zero =>
    intro k acc hk
    have : k = 0 := by omega
    subst this
    simp [bitLenAux]
  | succ n ih =>
    intro k acc hk
    simp only [bitLenAux]
    by_cases h0 : k = 0
    · subst h0; simp
    · rw [if_neg h0]
      obtain ⟨h1, h2⟩ := ih (k / 2) (acc + 1) (by omega)
      refine ⟨?_, by omega⟩
      have : bitLenAux n (k / 2) (acc + 1) - acc
          = (bitLenAux n (k / 2) (acc + 1) - (acc + 1)) + 1 := by
        omega
      rw [this, pow_succ]
      omega

theorem lt_two_pow_bitLen (k : Nat) : k < 2 ^ bitLen k := by
  have := (bitLenAux_spec k k 0 le_rfl).1
  simpa [bitLen] using this

theorem jacToAffine_spec (J : Jac) (hJ : secpW.toJacobian.Nonsingular (jacVec J)) :
    Valid (jacToAffine J) ∧ Point.toAffine secpW.toJacobian (toVec (jacToAffine J))
        = Point.toAffine secpW.toJacobian (jacVec J) := by
  unfold jacToAffine
  by_cases hZ : J.Z % secpP = 0
  · have hPz : jacVec J 2 = 0 := by rw [jacVec_z, cast_eq_zero_iff]; exact hZ
    rw [if_pos hZ, Point.toAffine_of_Z_eq_zero hPz]
    exact ⟨trivial, toVec_none_eq_zero⟩
  · have hz : (J.Z : ZMod secpP) ≠ 0 := by rw [Ne, cast_eq_zero_iff]; exact hZ
    have hu : IsUnit ((J.Z : ZMod secpP)⁻¹) := by
      rw [isUnit_iff_ne_zero]; exact inv_ne_zero hz
    rw [if_neg hZ]
    simp only []
    have hv : affVec (fmul J.X (fmul (secpInv J.Z) (secpInv J.Z)))
        (fmul J.Y (fmul (fmul (secpInv J.Z) (secpInv J.Z)) (secpInv J.Z)))
        = ((J.Z : ZMod secpP)⁻¹) • jacVec J := by
      ext i
      fin_cases i
      · simp only [affVec, jacVec, smul_fin3_ext, cast_fmul, cast_secpInv, Fin.zero_eta,
          Matrix.cons_val_zero]
        ring
      · simp only [affVec, jacVec, smul_fin3_ext, cast_fmul, cast_secpInv, Fin.mk_one,
          Matrix.cons_val_one, Matrix.head_cons]
        ring
      · simp only [affVec, jacVec, smul_fin3_ext, Fin.reduceFinMk, Matrix.cons_val_two,
          Matrix.tail_cons, Matrix.head_cons]
        rw [inv_mul_cancel₀ hz]
    refine ⟨⟨fmul_lt _ _, fmul_lt _ _, ?_⟩, ?_⟩
    · rw [hv, nonsingular_smul _ hu]; exact hJ
    · simp only [toVec]
      rw [hv, Point.toAffine_smul _ hu]

theorem toVec_some (x y : Nat) (h : secpW.toJacobian.Nonsingular (affVec x y)) :
    Point.toAffine secpW.toJacobian (toVec (some (x, y)))
        = WeierstrassCurve.Affine.Point.some ((nonsingular_some ..).mp h) :=
  Point.toAffine_some h

theorem secpNeg_spec (P : Option (Nat × Nat)) (hP : Valid P) :
    Valid (secpNeg P) ∧ Point.toAffine secpW.toJacobian (toVec (secpNeg P))
        = -Point.toAffine secpW.toJacobian (toVec P) := by
  cases P with
  | none => exact ⟨trivial, by simp [secpNeg, toVec, Point.toAffine_zero]⟩
  | some xy =>
    obtain ⟨x, y⟩ := xy
    obtain ⟨hx, -, hn⟩ := hP
    have hv : affVec x (fsub 0 y) = secpW.toJacobian.neg (affVec x y) := by
      ext i
      fin_cases i
      · simp [affVec, neg]
      · simp [affVec, neg, negY, cast_fsub, secpW]
      · simp [affVec, neg]
    simp only [secpNeg, toVec, Valid]
    rw [hv]
    exact ⟨⟨hx, fsub_lt _ _, nonsingular_neg hn⟩, Point.toAffine_neg hn⟩

theorem secpMul_spec (k : Int) (P : Option (Nat × Nat)) (hP : Valid P) :
    Valid (secpMul k P) ∧ Point.toAffine secpW.toJacobian (toVec (secpMul k P))
        = k • Point.toAffine secpW.toJacobian (toVec P) := by
  cases P with
  | none =>
    refine ⟨trivial, ?_⟩
    show Point.toAffine secpW.toJacobian (toVec none)
        = k • Point.toAffine secpW.toJacobian (toVec none)
    rw [toVec_none_eq_zero, zsmul_zero]
  | some xy =>
    obtain ⟨x, y⟩ := xy
    obtain ⟨-, -, hn⟩ := hP
    have h0 : secpW.toJacobian.Nonsingular (jacVec ⟨1, 1, 0⟩) := by
      rw [jacVec_infinity]; exact nonsingular_zero
    obtain ⟨hm, hmp⟩ := jacMulAux_spec k.natAbs x y hn (bitLen k.natAbs) ⟨1, 1, 0⟩ h0
    obtain ⟨hv, hvp⟩ := jacToAffine_spec _ hm
    rw [hmp, jacVec_infinity, Point.toAffine_zero, smul_zero, zero_add,
      Nat.mod_eq_of_lt (lt_two_pow_bitLen _)] at hvp
    simp only [secpMul]
    by_cases hk : k < 0
    · rw [if_pos hk]
      obtain ⟨hv', hvp'⟩ := secpNeg_spec _ hv
      refine ⟨hv', ?_⟩
      rw [hvp', hvp]
      simp only [toVec]
      have : k = -(k.natAbs : Int) := by omega
      conv_rhs => rw [this]
      rw [neg_zsmul, natCast_zsmul]
    · rw [if_neg hk]
      refine ⟨hv, ?_⟩
      rw [hvp]
      simp only [toVec]
      have : k = (k.natAbs : Int) := by omega
      conv_rhs => rw [this]
      rw [natCast_zsmul]

theorem toVec_eq_zero_iff (P : Option (Nat × Nat)) (hP : Valid P) :
    Point.toAffine secpW.toJacobian (toVec P) = 0 ↔ P = none := by
  cases P with
  | none => simp [toVec, Point.toAffine_zero]
  | some xy =>
    obtain ⟨x, y⟩ := xy
    rw [toVec_some x y hP.2.2]
    simp [WeierstrassCurve.Affine.Point.some_ne_zero]

theorem toVec_injective (P Q : Option (Nat × Nat)) (hP : Valid P) (hQ : Valid Q)
    (h : Point.toAffine secpW.toJacobian (toVec P)
        = Point.toAffine secpW.toJacobian (toVec Q)) : P = Q := by
  cases P with
  | none =>
    have := (toVec_eq_zero_iff Q hQ).1 (by rw [← h]; exact toVec_none_eq_zero)
    exact this.symm
  | some xy =>
    cases Q with
    | none => exact (toVec_eq_zero_iff _ hP).1 (by rw [h]; exact toVec_none_eq_zero)
    | some xy' =>
      obtain ⟨x, y⟩ := xy
      obtain ⟨x', y'⟩ := xy'
      rw [toVec_some x y hP.2.2, toVec_some x' y' hQ.2.2,
        WeierstrassCurve.Affine.Point.some.injEq] at h
      have h1 := (cast_inj_of_lt hP.1 hQ.1).1 h.1
      have h2 := (cast_inj_of_lt hP.2.1 hQ.2.1).1 h.2
      rw [h1, h2]

theorem secpAdd_spec (P Q : Option (Nat × Nat)) (hP : Valid P) (hQ : Valid Q) :
    Valid (secpAdd P Q) ∧ Point.toAffine secpW.toJacobian (toVec (secpAdd P Q))
        = Point.toAffine secpW.toJacobian (toVec P)
          + Point.toAffine secpW.toJacobian (toVec Q) := by
  cases P with
  | none =>
    refine ⟨by simpa [secpAdd] using hQ, ?_⟩
    simp only [secpAdd]
    rw [toVec_none_eq_zero, zero_add]
  | some xy1 =>
    cases Q with
    | none =>
      refine ⟨by simpa [secpAdd] using hP, ?_⟩
      simp only [secpAdd]
      rw [toVec_none_eq_zero, add_zero]
    | some xy2 =>
      obtain ⟨x1, y1⟩ := xy1
      obtain ⟨x2, y2⟩ := xy2
      obtain ⟨hx1, hy1, hn1⟩ := hP
      obtain ⟨hx2, hy2, hn2⟩ := hQ
      have hxeq : (x1 : ZMod secpP) = x2 ↔ x1 = x2 := cast_inj_of_lt hx1 hx2
      have hyeq : (y1 : ZMod secpP) = secpW.toAffine.negY x2 y2 ↔ (y1 + y2) % secpP = 0 := by
        rw [← cast_eq_zero_iff, Nat.cast_add]
        simp only [WeierstrassCurve.Affine.negY, secpW, WeierstrassCurve.toAffine, zero_mul,
          sub_zero]
        constructor
        · intro h; rw [h]; ring
        · intro h; linear_combination h
      rw [toVec_some x1 y1 hn1, toVec_some x2 y2 hn2]
      simp only [secpAdd]
      by_cases hc : x1 = x2 ∧ (y1 + y2) % secpP = 0
      · rw [if_pos hc]
        refine ⟨trivial, ?_⟩
        rw [toVec_none_eq_zero]
        exact (WeierstrassCurve.Affine.Point.add_of_Y_eq (hxeq.2 hc.1) (hyeq.2 hc.2)).symm
      · rw [if_neg hc]
        have hxy : (x1 : ZMod secpP) = x2 → (y1 : ZMod secpP) ≠ secpW.toAffine.negY x2 y2 :=
          fun h1 h2 => hc ⟨hxeq.1 h1, hyeq.1 h2⟩
        have hL : (((if x1 = x2 then fmul (fmul 3 (fmul x1 x1)) (secpInv (fmul 2 y1))
            else fmul (fsub y1 y2) (secpInv (fsub x1 x2)) : Nat)) : ZMod secpP)
            = secpW.toAffine.slope x1 x2 y1 y2 := by
          by_cases hx : x1 = x2
          · rw [if_pos hx, WeierstrassCurve.Affine.slope_of_Y_ne (hxeq.2 hx) (hxy (hxeq.2 hx))]
            simp only [cast_fmul, cast_secpInv, WeierstrassCurve.Affine.negY, secpW,
              WeierstrassCurve.toAffine, Nat.cast_ofNat, zero_mul, mul_zero, sub_zero, add_zero]
            rw [div_eq_mul_inv]
            congr 1
            · ring
            · congr 1; ring
          · rw [if_neg hx, WeierstrassCurve.Affine.slope_of_X_ne (fun h => hx (hxeq.1 h))]
            simp only [cast_fmul, cast_secpInv, cast_fsub]
            rw [div_eq_mul_inv]
        have hns := WeierstrassCurve.Affine.nonsingular_add ((nonsingular_some ..).mp hn1)
          ((nonsingular_some ..).mp hn2) hxy
        generalize hl : (if x1 = x2 then fmul (fmul 3 (fmul x1 x1)) (secpInv (fmul 2 y1))
            else fmul (fsub y1 y2) (secpInv (fsub x1 x2)) : Nat) = l at hL
        have hx3 : ((fsub (fsub (fmul l l) x1) x2 : Nat) : ZMod secpP)
            = secpW.toAffine.addX x1 x2 (secpW.toAffine.slope x1 x2 y1 y2) := by
          rw [← hL]
          simp only [cast_fsub, cast_fmul, WeierstrassCurve.Affine.addX, secpW,
            WeierstrassCurve.toAffine, zero_mul, add_zero, sub_zero]
          ring
        have hy3 : ((fsub (fmul l (fsub x1 (fsub (fsub (fmul l l) x1) x2))) y1 : Nat) : ZMod secpP)
            = secpW.toAffine.addY x1 x2 y1 (secpW.toAffine.slope x1 x2 y1 y2) := by
          rw [← hL]
          simp only [cast_fsub, cast_fmul, WeierstrassCurve.Affine.addY,
            WeierstrassCurve.Affine.negAddY, WeierstrassCurve.Affine.negY,
            WeierstrassCurve.Affine.addX, secpW,
            WeierstrassCurve.toAffine, zero_mul, add_zero, sub_zero]
          ring
        have hn3 : secpW.toJacobian.Nonsingular
            (affVec (fsub (fsub (fmul l l) x1) x2)
              (fsub (fmul l (fsub x1 (fsub (fsub (fmul l l) x1) x2))) y1)) := by
          unfold affVec
          rw [hx3, hy3]
          exact (nonsingular_some ..).mpr hns
        refine ⟨⟨fsub_lt _ _, fsub_lt _ _, hn3⟩, ?_⟩
        rw [toVec_some _ _ hn3, WeierstrassCurve.Affine.Point.add_of_imp hxy,
          WeierstrassCurve.Affine.Point.some.injEq]
        exact ⟨hx3, hy3⟩

theorem valid_equation (x y : Nat) (h : Valid (some (x, y))) :
    (y : ZMod secpP) ^ 2 = (x : ZMod secpP) ^ 3 + 7 := by
  have := ((nonsingular_some ..).mp h.2.2).left
  rw [WeierstrassCurve.Affine.equation_iff] at this
  simpa [secpW, WeierstrassCurve.toAffine] using this

theorem valid_of_equation (x y : Nat) (hx : x < secpP) (hy : y < secpP)
    (h : (y : ZMod secpP) ^ 2 = (x : ZMod secpP) ^ 3 + 7) : Valid (some (x, y)) := by
  refine ⟨hx, hy, (nonsingular_some ..).mpr (WeierstrassCurve.Affine.nonsingular secpW ?_)⟩
  rw [WeierstrassCurve.Affine.equation_iff]
  simpa [secpW, WeierstrassCurve.toAffine] using h

set_option maxRecDepth 1000000 in
theorem valid_secpG : Valid secpG := by
  apply valid_of_equation _ _ (by decide) (by decide)
  have h : (0x483ADA7726A3C4655DA4FBFC0E1108A8FD17B448A68554199C47D08FFB10D4B8 ^ 2) % secpP
      = (0x79BE667EF9DCBBAC55A06295CE870B07029BFCDB2DCE28D959F2815B16F81798 ^ 3 + 7) % secpP := by
    decide!
  have := (ZMod.natCast_eq_natCast_iff' _ _ secpP).2 h
  push_cast at this
  exact this

set_option maxRecDepth 1000000 in
/-- No point of secp256k1 has a zero X-coordinate: 7 is not a square modulo the field prime. -/
theorem valid_x_ne_zero (x y : Nat) (h : Valid (some (x, y))) : x ≠ 0 := by
  rintro rfl
  have heq := valid_equation 0 y h
  simp only [Nat.cast_zero, ne_eq, OfNat.ofNat_ne_zero, not_false_eq_true, zero_pow, zero_add]
    at heq
  have h7 : (7 : ZMod secpP) ≠ 0 := by
    have : ((7 : Nat) : ZMod secpP) ≠ 0 := by rw [Ne, cast_eq_zero_iff]; decide
    simpa using this
  have hy0 : (y : ZMod secpP) ≠ 0 := by
    intro h0
    rw [h0] at heq
    exact h7 (by rw [← heq]; ring)
  have h1 : (y : ZMod secpP) ^ (secpP - 1) = 1 := ZMod.pow_card_sub_one_eq_one hy0
  have h2 : secpP - 1 = 2 * ((secpP - 1) / 2) := by decide
  rw [h2, pow_mul, heq] at h1
  have h3 : powMod 7 ((secpP - 1) / 2) secpP = secpP - 1 := by decide!
  rw [powMod_eq] at h3
  have h4 : ((7 ^ ((secpP - 1) / 2) : Nat) : ZMod secpP) = ((secpP - 1 : Nat) : ZMod secpP) := by
    rw [← ZMod.natCast_mod, h3]
  rw [Nat.cast_pow, Nat.cast_sub (by decide), ZMod.natCast_self] at h4
  simp only [Nat.cast_ofNat, Nat.cast_one, zero_sub] at h4
  rw [h1] at h4
  have h5 : ((2 : Nat) : ZMod secpP) = 0 := by
    push_cast
    linear_combination h4
  rw [cast_eq_zero_iff] at h5
  revert h5
  decide

set_option maxRecDepth 1000000 in
/-- The generator has order dividing `secpN`. -/
theorem secpN_smul_G : (secpN : Int) • Point.toAffine secpW.toJacobian (toVec secpG) = 0 := by
  have h := (secpMul_spec secpN secpG valid_secpG).2
  have h0 : secpMul secpN secpG = none := by decide!
  rw [h0, toVec_none_eq_zero] at h
  exact h.symm

/-! ### Facts about the library instance `openssl` -/

/-- Every multiple of the generator is a point of the curve in canonical form. -/
theorem openssl_valid_smul (k : Int) : Valid (openssl.smul k openssl.G) :=
  (secpMul_spec k secpG valid_secpG).1

/-- The X-coordinate of a multiple of the generator is never zero. -/
theorem openssl_x_ne_zero (k : Int) (x y : Nat)
    (h : openssl.coords (EC_POINT_mul openssl none openssl.G k) = some (x, y)) : x ≠ 0 := by
  have hv := openssl_valid_smul k
  have h' : openssl.smul k openssl.G = some (x, y) := h
  rw [h'] at hv
  exact valid_x_ne_zero x y hv

/-- The library computes `s * G + h * (a * G)` as `(s + h * a) * G`. -/
theorem openssl_mul_add (s h a : Int) :
    EC_POINT_mul openssl (some s) (EC_POINT_mul openssl none openssl.G a) h
      = EC_POINT_mul openssl none openssl.G (s + h * a) := by
  show secpAdd (secpMul s secpG) (secpMul h (secpMul a secpG)) = secpMul (s + h * a) secpG
  obtain ⟨v1, e1⟩ := secpMul_spec s secpG valid_secpG
  obtain ⟨v2, e2⟩ := secpMul_spec a secpG valid_secpG
  obtain ⟨v3, e3⟩ := secpMul_spec h _ v2
  obtain ⟨v4, e4⟩ := secpMul_spec (s + h * a) secpG valid_secpG
  obtain ⟨v5, e5⟩ := secpAdd_spec _ _ v1 v3
  apply toVec_injective _ _ v5 v4
  rw [e5, e1, e3, e2, e4]
  module

/-- Scalars congruent modulo the group order give the same multiple of the generator. -/
theorem openssl_smul_congr (s t : Int) (h : (s - t) % openssl.order = 0) :
    openssl.smul s openssl.G = openssl.smul t openssl.G := by
  show secpMul s secpG = secpMul t secpG
  obtain ⟨v1, e1⟩ := secpMul_spec s secpG valid_secpG
  obtain ⟨v2, e2⟩ := secpMul_spec t secpG valid_secpG
  apply toVec_injective _ _ v1 v2
  rw [e1, e2]
  obtain ⟨m, hm⟩ := Int.dvd_of_emod_eq_zero h
  have hs : s = t + m * (secpN : Int) := by
    have : openssl.order = (secpN : Int) := rfl
    rw [this] at hm
    linear_combination hm
  rw [hs, add_smul, mul_smul, secpN_smul_G, smul_zero, add_zero]

/-- The opposite multiple has the same X-coordinate and the opposite Y-coordinate. -/
theorem openssl_smul_neg (k : Int) (x y : Nat)
    (h : openssl.coords (openssl.smul k openssl.G) = some (x, y)) :
    openssl.coords (openssl.smul (-k) openssl.G) = some (x, fsub 0 y) := by
  have h' : secpMul k secpG = some (x, y) := h
  show secpMul (-k) secpG = some (x, fsub 0 y)
  obtain ⟨v1, e1⟩ := secpMul_spec k secpG valid_secpG
  obtain ⟨v2, e2⟩ := secpMul_spec (-k) secpG valid_secpG
  obtain ⟨v3, e3⟩ := secpNeg_spec _ v1
  have : secpMul (-k) secpG = secpNeg (secpMul k secpG) := by
    apply toVec_injective _ _ v2 v3
    rw [e2, e3, e1, neg_zsmul]
  rw [this, h']
  rfl

/-- On a point with an odd Y, the opposite Y computed by the library is even. -/
theorem fsub_zero_even (y : Nat) (hy : y < secpP) (hodd : y % 2 = 1) : fsub 0 y % 2 = 0 := by
  have hp : secpP % 2 = 1 := by decide
  have hlt : secpP - y < secpP := by omega
  have : fsub 0 y = secpP - y := by
    unfold fsub
    rw [Nat.mod_eq_of_lt hy, Nat.zero_add, Nat.mod_eq_of_lt hlt]
  omega

end Curve

/-! ## Signing -/

/-- C6 (as the code has it): a successful `schnorr_sign` returns the big number `k' - h * a`
itself, with `(r, k')` what `gen_r` left and `h` what `gen_h` left in its output; nothing is
reduced modulo the group order. -/
theorem schnorr_sign_s_unreduced (L : Lib) (r0 : List Nat) (k0 a : Int) (msg : List Nat)
    (sig : schnorr_sig) (hs : schnorr_sign L r0 k0 a msg = some sig) :
    ∃ r k, gen_r L r0 k0 = some (r, k) ∧ sig.r = r ∧ sig.s = k - (gen_h L msg r).2 * a := by
  unfold schnorr_sign at hs
  cases hg : gen_r L r0 k0 with
  | none => simp [hg] at hs
  | some rk =>
    obtain ⟨r, k⟩ := rk
    simp only [hg] at hs
    split_ifs at hs with hc
    · exact ⟨r, k, rfl, by cases hs; rfl, by cases hs; rfl⟩

/-- C5 (what the code does): when `gen_h` rejects the hash (code -1), `schnorr_sign` and
`committed_r_sign` still return success, with a signature computed from the rejected number. -/
theorem sign_accepts_rejected_hash (L : Lib) (r0 : List Nat) (k0 a : Int) (msg r : List Nat)
    (k : Int) (key : committed_r_key L.Point)
    (hg : gen_r L r0 k0 = some (r, k))
    (h1 : (gen_h L msg r).1 = -1) (h2 : (gen_h L msg key.pub.r).1 = -1) :
    schnorr_sign L r0 k0 a msg = some ⟨r, k - (gen_h L msg r).2 * a⟩ ∧
    committed_r_sign L key msg = some (key.k - (gen_h L msg key.pub.r).2 * key.a) := by
  constructor
  · unfold schnorr_sign
    simp only [hg]
    rw [if_neg (by rw [h1]; decide)]
  · unfold committed_r_sign
    simp only
    rw [if_neg (by rw [h2]; decide)]

/-! ## Verification -/

/-- When `schnorr_verify` returns 1: exactly when `s` is below the order, `gen_h` accepts the
hash, `s * G + h * A` has affine coordinates with an even Y, `BN_bn2bin` writes at least one
byte of X, and the 32 bytes of `x` after that write equal the 32 bytes of `r`. -/
theorem schnorr_verify_eq_one_iff (L : Lib) (x0 : List Nat) (sig : schnorr_sig) (A : L.Point)
    (msg : List Nat) :
    schnorr_verify L x0 sig A msg = 1 ↔
      sig.s < L.order ∧ (gen_h L msg sig.r).1 = 1 ∧
      ∃ Rx Ry, L.coords (EC_POINT_mul L (some sig.s) A (gen_h L msg sig.r).2) = some (Rx, Ry) ∧
        BN_is_odd (Ry : Int) = false ∧
        L.isInf (EC_POINT_mul L (some sig.s) A (gen_h L msg sig.r).2) = false ∧
        0 < (BN_bn2bin (Rx : Int)).length ∧
        memEq (writeBuf x0 (BN_bn2bin (Rx : Int))) sig.r 32 = true := by
  unfold schnorr_verify
  by_cases hs : BN_cmp sig.s L.order ≠ -1
  · rw [if_pos hs]
    have : ¬ sig.s < L.order := by rw [BN_cmp_ne_neg_one] at hs; omega
    simp [this]
  · rw [if_neg hs]
    have hlt : sig.s < L.order := by rw [BN_cmp_ne_neg_one] at hs; omega
    simp only [hlt, true_and]
    by_cases hg : (gen_h L msg sig.r).1 = 1
    · simp only [hg, ne_eq, not_true_eq_false, if_false, true_and]
      cases hc : L.coords (EC_POINT_mul L (some sig.s) A (gen_h L msg sig.r).2) with
      | none => simp
      | some xy =>
        obtain ⟨Rx, Ry⟩ := xy
        dsimp only
        constructor
        · intro h
          refine ⟨Rx, Ry, rfl, ?_⟩
          split_ifs at h with h1 h2 h3 h4 <;> try omega
          exact ⟨by simpa using h1, by simpa using h2, by omega, h4⟩
        · rintro ⟨Rx', Ry', hxy, h1, h2, h3, h4⟩
          cases hxy
          rw [if_neg (by simp [h1]), if_neg (by simp [h2]), if_neg (by omega), if_pos h4]
    · rw [if_pos hg]
      simp [hg]

/-- C8: a signature with `s` not below the group order is invalid: `schnorr_verify`
returns -1. -/
theorem schnorr_verify_s_out_of_range (L : Lib) (x0 : List Nat) (sig : schnorr_sig)
    (A : L.Point) (msg : List Nat) (hs : L.order ≤ sig.s) :
    schnorr_verify L x0 sig A msg = -1 := by
  unfold schnorr_verify
  rw [if_pos ((BN_cmp_ne_neg_one _ _).2 hs)]

/-- C9 (what the code does): with `s` below the order and the hash accepted, when
`s * G + h * A` is the point at infinity, where `EC_POINT_get_affine_coordinates_GFp` fails,
`schnorr_verify` returns 0 (error), not -1. -/
theorem schnorr_verify_infinity_is_error (L : Lib) (x0 : List Nat) (sig : schnorr_sig)
    (A : L.Point) (msg : List Nat) (h : Int) (hs : sig.s < L.order)
    (hh : gen_h L msg sig.r = (1, h))
    (hinf : L.coords (EC_POINT_mul L (some sig.s) A h) = none) :
    schnorr_verify L x0 sig A msg = 0 := by
  unfold schnorr_verify
  rw [if_neg (by rw [BN_cmp_ne_neg_one]; omega)]
  simp only [hh, hinf]
  simp

/-! ## Recovery from two committed-R signatures -/

/-- When `k * G` has an even Y and a nonzero X, `gen_r` leaves `k` as it is and writes the
unpadded bytes of the X-coordinate. -/
theorem gen_r_of_even (L : Lib) (r0 : List Nat) (k : Int) (x y : Nat)
    (hR : L.coords (EC_POINT_mul L none L.G k) = some (x, y))
    (hy : BN_is_odd (y : Int) = false) (hx : x ≠ 0) :
    gen_r L r0 k = some (writeBuf r0 (BN_bn2bin (x : Int)), k) := by
  unfold gen_r
  simp only [hR, hy]
  exact gen_r_emit_of_ne_zero r0 k x hx

/-- What `committed_r_recover` computes once both hashes are accepted and different. -/
theorem committed_r_recover_eq (L : Lib) (r0 : List Nat) (s1 s2 : Int)
    (msg1 msg2 : List Nat) (pubkey : committed_r_pubkey L.Point) (h1 h2 : Int)
    (hh1 : gen_h L msg1 pubkey.r = (1, h1)) (hh2 : gen_h L msg2 pubkey.r = (1, h2))
    (hne : h1 ≠ h2) :
    committed_r_recover L r0 s1 msg1 s2 msg2 pubkey =
      (gen_r L r0 (s2 + h2 * Int.tdiv (s2 - s1) (h1 - h2))).map
        (fun rk => ⟨Int.tdiv (s2 - s1) (h1 - h2), rk.2,
          ⟨EC_POINT_mul L none L.G (Int.tdiv (s2 - s1) (h1 - h2)), rk.1⟩⟩) := by
  have hd : h1 - h2 ≠ 0 := sub_ne_zero.mpr hne
  unfold committed_r_recover BN_div
  simp only [hh1, hh2, if_neg hd, ne_eq, not_true_eq_false, if_false]
  cases gen_r L r0 (s2 + h2 * Int.tdiv (s2 - s1) (h1 - h2)) <;> rfl

/-- C10 (as the code has it): with both hashes accepted and different, `committed_r_recover`
computes `a` as the quotient of the big numbers `s2 - s1` and `h1 - h2` rounded towards zero
(`BN_div`, no modular inverse), hands the big number `s2 + h2 * a` (not reduced) to `gen_r`, and
returns `a`, the `k` and `r` that `gen_r` leaves and `A = a * G`; it fails when `gen_r` does. -/
theorem committed_r_recover_formula (L : Lib) (r0 : List Nat) (s1 s2 : Int)
    (msg1 msg2 : List Nat) (pubkey : committed_r_pubkey L.Point) (h1 h2 : Int)
    (hh1 : gen_h L msg1 pubkey.r = (1, h1)) (hh2 : gen_h L msg2 pubkey.r = (1, h2))
    (hne : h1 ≠ h2) :
    committed_r_recover L r0 s1 msg1 s2 msg2 pubkey =
      (gen_r L r0 (s2 + h2 * Int.tdiv (s2 - s1) (h1 - h2))).map
        (fun rk => ⟨Int.tdiv (s2 - s1) (h1 - h2), rk.2,
          ⟨EC_POINT_mul L none L.G (Int.tdiv (s2 - s1) (h1 - h2)), rk.1⟩⟩) :=
  committed_r_recover_eq L r0 s1 s2 msg1 msg2 pubkey h1 h2 hh1 hh2 hne

/-- Recovery is exact for any library, provided the X-coordinate of `k * G` is not zero (so that
`BN_bn2bin` writes at least one byte). -/
theorem committed_r_recover_exact_of_ne_zero (L : Lib) (r0 : List Nat)
    (key : committed_r_key L.Point)
    (msg1 msg2 : List Nat) (x y : Nat) (h1 h2 : Int)
    (hR : L.coords (EC_POINT_mul L none L.G key.k) = some (x, y))
    (hy : BN_is_odd (y : Int) = false) (hx : x ≠ 0)
    (hh1 : gen_h L msg1 key.pub.r = (1, h1)) (hh2 : gen_h L msg2 key.pub.r = (1, h2))
    (hne : h1 ≠ h2) :
    ∃ s1 s2 key', committed_r_sign L key msg1 = some s1 ∧
      committed_r_sign L key msg2 = some s2 ∧
      committed_r_recover L r0 s1 msg1 s2 msg2 key.pub = some key' ∧
      key'.a = key.a ∧ key'.k = key.k := by
  have hd : h1 - h2 ≠ 0 := sub_ne_zero.mpr hne
  have hq : Int.tdiv (key.k - h2 * key.a - (key.k - h1 * key.a)) (h1 - h2) = key.a := by
    have : key.k - h2 * key.a - (key.k - h1 * key.a) = (h1 - h2) * key.a := by ring
    rw [this, Int.mul_tdiv_cancel_left _ hd]
  have hk : key.k - h2 * key.a + h2 * key.a = key.k := by ring
  refine ⟨key.k - h1 * key.a, key.k - h2 * key.a,
    ⟨key.a, key.k, ⟨EC_POINT_mul L none L.G key.a, writeBuf r0 (BN_bn2bin (x : Int))⟩⟩,
    ?_, ?_, ?_, rfl, rfl⟩
  · unfold committed_r_sign
    simp [hh1]
  · unfold committed_r_sign
    simp [hh2]
  · rw [committed_r_recover_eq L r0 _ _ msg1 msg2 key.pub h1 h2 hh1 hh2 hne, hq, hk,
      gen_r_of_even L r0 key.k x y hR hy hx]
    rfl

/-- C2: for every committed-R key whose `k * G` is an affine point with an even Y, and every two
messages whose hashes against `key.pub.r` are accepted and different, both `committed_r_sign`
calls succeed, and `committed_r_recover` on the two signatures succeeds and returns a key with
the same `a` and the same `k`. -/
theorem committed_r_recover_exact (r0 : List Nat) (key : committed_r_key openssl.Point)
    (msg1 msg2 : List Nat) (x y : Nat) (h1 h2 : Int)
    (hR : openssl.coords (EC_POINT_mul openssl none openssl.G key.k) = some (x, y))
    (hy : BN_is_odd (y : Int) = false)
    (hh1 : gen_h openssl msg1 key.pub.r = (1, h1))
    (hh2 : gen_h openssl msg2 key.pub.r = (1, h2)) (hne : h1 ≠ h2) :
    ∃ s1 s2 key', committed_r_sign openssl key msg1 = some s1 ∧
      committed_r_sign openssl key msg2 = some s2 ∧
      committed_r_recover openssl r0 s1 msg1 s2 msg2 key.pub = some key' ∧
      key'.a = key.a ∧ key'.k = key.k :=
  committed_r_recover_exact_of_ne_zero openssl r0 key msg1 msg2 x y h1 h2 hR hy
    (openssl_x_ne_zero key.k x y hR) hh1 hh2 hne

/-- C11 (as the code has it): a key that `committed_r_recover` returns carries `A = a * G` for
its own `a`, and the `r` and `k` that `gen_r` leaves for `s2 + h2 * a`. Nothing is compared with
the public key supplied: its `A` is never read, so the same key is returned whatever point the
public key holds. -/
theorem committed_r_recover_unchecked (L : Lib) (r0 : List Nat) (s1 s2 : Int)
    (msg1 msg2 : List Nat) (pubkey : committed_r_pubkey L.Point) (key : committed_r_key L.Point)
    (h : committed_r_recover L r0 s1 msg1 s2 msg2 pubkey = some key) :
    key.pub.A = EC_POINT_mul L none L.G key.a ∧
    gen_r L r0 (s2 + (gen_h L msg2 pubkey.r).2 * key.a) = some (key.pub.r, key.k) ∧
    ∀ A : L.Point, committed_r_recover L r0 s1 msg1 s2 msg2 ⟨A, pubkey.r⟩ = some key := by
  have key_lemma : ∀ A : L.Point, committed_r_recover L r0 s1 msg1 s2 msg2 ⟨A, pubkey.r⟩ =
      committed_r_recover L r0 s1 msg1 s2 msg2 pubkey := fun A => rfl
  refine ⟨?_, ?_, fun A => by rw [key_lemma, h]⟩
  · unfold committed_r_recover BN_div at h
    simp only at h
    split_ifs at h with c1 c2 c3
    cases hg : gen_r L r0 (s2 + (gen_h L msg2 pubkey.r).2 *
        Int.tdiv (s2 - s1) ((gen_h L msg1 pubkey.r).2 - (gen_h L msg2 pubkey.r).2)) with
    | none => simp [hg] at h
    | some rk =>
      simp only [hg] at h
      cases h
      rfl
  · unfold committed_r_recover BN_div at h
    simp only at h
    split_ifs at h with c1 c2 c3
    cases hg : gen_r L r0 (s2 + (gen_h L msg2 pubkey.r).2 *
        Int.tdiv (s2 - s1) ((gen_h L msg1 pubkey.r).2 - (gen_h L msg2 pubkey.r).2)) with
    | none => simp [hg] at h
    | some rk =>
      simp only [hg] at h
      cases h
      exact hg

/-- C12: when the two messages are equal, or the hashes `H(m1, pub.r)` and `H(m2, pub.r)` are
equal, or `gen_h` rejects either of them (code -1), `committed_r_recover` returns 0 and stores
no key. -/
theorem committed_r_recover_fails (L : Lib) (r0 : List Nat) (s1 s2 : Int) (msg1 msg2 : List Nat)
    (pubkey : committed_r_pubkey L.Point)
    (h : msg1 = msg2 ∨ (gen_h L msg1 pubkey.r).2 = (gen_h L msg2 pubkey.r).2 ∨
      (gen_h L msg1 pubkey.r).1 = -1 ∨ (gen_h L msg2 pubkey.r).1 = -1) :
    committed_r_recover L r0 s1 msg1 s2 msg2 pubkey = none := by
  have h' : (gen_h L msg1 pubkey.r).2 = (gen_h L msg2 pubkey.r).2 ∨
      (gen_h L msg1 pubkey.r).1 = -1 ∨ (gen_h L msg2 pubkey.r).1 = -1 := by
    rcases h with h | h
    · left; rw [h]
    · exact h
  unfold committed_r_recover BN_div
  simp only
  split_ifs with c1 c2 c3
  · rfl
  · rfl
  · rfl
  · exfalso
    rcases h' with h' | h' | h'
    · exact c3 (by rw [h']; ring)
    · simp at c1; rw [c1] at h'; omega
    · simp at c2; rw [c2] at h'; omega

/-! ## The hash to a scalar -/

/-- C13: for a 32-byte `r` and a digest of 32 bytes, with `h` the big-endian integer of
`SHA256(r ‖ SHA256(msg))`, `gen_h` leaves `h` in its output, returns 1 exactly when
`1 ≤ h < n`, and returns -1 exactly when `h = 0` or `h ≥ n`. -/
theorem gen_h_spec (L : Lib) (msg r : List Nat) (hr : r.length = 32)
    (hsha : ∀ x, (L.sha x).length = 32) :
    (gen_h L msg r).2 = (beNat (L.sha (r ++ L.sha msg)) : Int) ∧
    ((gen_h L msg r).1 = 1 ↔
      1 ≤ (beNat (L.sha (r ++ L.sha msg)) : Int) ∧
        (beNat (L.sha (r ++ L.sha msg)) : Int) < L.order) ∧
    ((gen_h L msg r).1 = -1 ↔
      (beNat (L.sha (r ++ L.sha msg)) : Int) = 0 ∨
        L.order ≤ (beNat (L.sha (r ++ L.sha msg)) : Int)) := by
  have e1 : r.take 32 = r := List.take_of_length_le (by omega)
  have e2 : (L.sha msg).take 32 = L.sha msg := List.take_of_length_le (by rw [hsha])
  have e3 : (L.sha (r ++ L.sha msg)).take 32 = L.sha (r ++ L.sha msg) :=
    List.take_of_length_le (by rw [hsha])
  unfold gen_h hash BN_bin2bn
  simp only [e1, e2, e3, BN_cmp_ne_neg_one]
  have hnn : (0 : Int) ≤ (beNat (L.sha (r ++ L.sha msg)) : Int) := Int.natCast_nonneg _
  generalize (beNat (L.sha (r ++ L.sha msg)) : Int) = h at hnn
  split_ifs with h0 h1
  · simp [h0]
  · refine ⟨rfl, ?_, ?_⟩
    · simp; omega
    · simp; omega
  · refine ⟨rfl, ?_, ?_⟩
    · simp; omega
    · simp; omega

/-! ## Committed-R verification -/

/-- C14: `committed_r_verify(sig, pub, msg)` returns what `schnorr_verify` returns on the
signature `(r = pub.r, s = sig.s)` and the public key `A = pub.A`. -/
theorem committed_r_verify_eq_schnorr_verify (L : Lib) (x0 : List Nat) (s : Int)
    (pubkey : committed_r_pubkey L.Point) (msg : List Nat) :
    committed_r_verify L x0 s pubkey msg = schnorr_verify L x0 ⟨pubkey.r, s⟩ pubkey.A msg := by
  unfold committed_r_verify schnorr_verify
  simp only [gen_h_take, memEq, List.take_take, min_self]

/-! ## Nonces on secp256k1 -/

/-- What `gen_r` does on secp256k1 when `k * G` is the affine point `(x, y)`: it succeeds, writes
the bytes `BN_bn2bin` gives for `x` at the start of `r`, and leaves `0 - k` in `k` when `y` is
odd, `k` otherwise; the multiple of `G` by the number left has the same X and an even Y. -/
theorem gen_r_openssl (r0 : List Nat) (k : Int) (x y : Nat)
    (h : openssl.coords (EC_POINT_mul openssl none openssl.G k) = some (x, y)) :
    gen_r openssl r0 k
      = some (writeBuf r0 (BN_bn2bin (x : Int)), if y % 2 = 1 then -k else k) ∧
    ∃ y', openssl.coords (EC_POINT_mul openssl none openssl.G (if y % 2 = 1 then -k else k))
      = some (x, y') ∧ y' % 2 = 0 := by
  have hx : x ≠ 0 := openssl_x_ne_zero k x y h
  have hv := openssl_valid_smul k
  have h' : openssl.smul k openssl.G = some (x, y) := h
  rw [h'] at hv
  by_cases hy : y % 2 = 1
  · have hneg := openssl_smul_neg k x y h
    have hodd : BN_is_odd (y : Int) = true := by simp [BN_is_odd, hy]
    rw [if_pos hy]
    refine ⟨?_, fsub 0 y, hneg, fsub_zero_even y hv.2.1 hy⟩
    unfold gen_r
    simp only [h, hodd, if_true, zero_sub]
    have hneg' : openssl.coords (EC_POINT_mul openssl none openssl.G (-k)) = some (x, fsub 0 y) :=
      hneg
    simp only [hneg']
    exact gen_r_emit_of_ne_zero r0 (-k) x hx
  · have heven : BN_is_odd (y : Int) = false := by simp [BN_is_odd, hy]
    rw [if_neg hy]
    exact ⟨gen_r_of_even openssl r0 k x y h heven hx, y, h, by omega⟩

/-- C17 (what the code does): when `gen_r` succeeds on secp256k1, the multiple of `G` by the
number `k'` it leaves has an even Y and the X-coordinate of the original `k * G`, and the bytes
it leaves in `r` start with those `BN_bn2bin` gives for that X, unpadded: they decode to X on
their own length (not on the 32 bytes of `r` when X is below `2^248`). -/
theorem gen_r_parity (r0 : List Nat) (k : Int) (r : List Nat) (k' : Int)
    (h : gen_r openssl r0 k = some (r, k')) :
    ∃ x y y', openssl.coords (EC_POINT_mul openssl none openssl.G k) = some (x, y) ∧
      openssl.coords (EC_POINT_mul openssl none openssl.G k') = some (x, y') ∧ y' % 2 = 0 ∧
      r = writeBuf r0 (BN_bn2bin (x : Int)) ∧
      BN_bin2bn r (BN_bn2bin (x : Int)).length = x := by
  cases hc : openssl.coords (EC_POINT_mul openssl none openssl.G k) with
  | none =>
    unfold gen_r at h
    simp [hc] at h
  | some xy =>
    obtain ⟨x, y⟩ := xy
    obtain ⟨hg, y', hy', hev⟩ := gen_r_openssl r0 k x y hc
    rw [hg] at h
    cases h
    exact ⟨x, y, y', rfl, hy', hev, rfl, BN_bin2bn_writeBuf r0 x⟩

/-- C16 (what the code does): on secp256k1 a signature `(r, s)` that `schnorr_sign` returns for
the key `a` satisfies `s * G + h * (a * G) = k' * G`, where `k'` is the nonce `gen_r` left and
`h` the number `gen_h` left for the message and `r`; `k' * G` has an even Y; and `r` starts
with the bytes `BN_bn2bin` gives for the X-coordinate of `k' * G`, unpadded: they decode to X
on their own length (not on the 32 bytes of `r` when X is below `2^248`). -/
theorem schnorr_sign_binds_nonce (r0 : List Nat) (k0 a : Int) (msg : List Nat)
    (sig : schnorr_sig) (hs : schnorr_sign openssl r0 k0 a msg = some sig) :
    ∃ k' x y, gen_r openssl r0 k0 = some (sig.r, k') ∧
      EC_POINT_mul openssl (some sig.s) (EC_POINT_mul openssl none openssl.G a)
          (gen_h openssl msg sig.r).2 = EC_POINT_mul openssl none openssl.G k' ∧
      openssl.coords (EC_POINT_mul openssl none openssl.G k') = some (x, y) ∧ y % 2 = 0 ∧
      sig.r = writeBuf r0 (BN_bn2bin (x : Int)) ∧
      BN_bin2bn sig.r (BN_bn2bin (x : Int)).length = x := by
  unfold schnorr_sign at hs
  cases hg : gen_r openssl r0 k0 with
  | none => simp [hg] at hs
  | some rk =>
    obtain ⟨r, k'⟩ := rk
    simp only [hg] at hs
    split_ifs at hs with hc
    cases hs
    obtain ⟨x, y, hy, hx⟩ : ∃ x y, openssl.coords (EC_POINT_mul openssl none openssl.G k0)
        = some (x, y) ∧ gen_r openssl r0 k0
        = some (writeBuf r0 (BN_bn2bin (x : Int)), if y % 2 = 1 then -k0 else k0) := by
      cases hc0 : openssl.coords (EC_POINT_mul openssl none openssl.G k0) with
      | none =>
        unfold gen_r at hg
        simp [hc0] at hg
      | some xy => exact ⟨xy.1, xy.2, rfl, (gen_r_openssl r0 k0 xy.1 xy.2 hc0).1⟩
    obtain ⟨_, y', hy', hev⟩ := gen_r_openssl r0 k0 x y hy
    rw [hx] at hg
    cases hg
    refine ⟨_, x, y', rfl, ?_, hy', hev, rfl, BN_bin2bn_writeBuf r0 x⟩
    rw [openssl_mul_add]
    congr 1
    ring

/-- C18 (as the code has it): for every `k` in `[1, n-1]`, `gen_r` succeeds and leaves the
integer `-k` (computed as `0 - k`, not reduced) when the Y-coordinate of `k * G` is odd, and `k`
otherwise; the number left is congruent modulo `n` to the `n - k`, respectively `k`, of the
specification. -/
theorem gen_r_nonce_value (r0 : List Nat) (k : Int) (hk1 : 1 ≤ k) (hk2 : k < openssl.order) :
    ∃ x y r k', openssl.coords (EC_POINT_mul openssl none openssl.G k) = some (x, y) ∧
      gen_r openssl r0 k = some (r, k') ∧
      k' = (if y % 2 = 1 then -k else k) ∧
      (k' - (if y % 2 = 1 then openssl.order - k else k)) % openssl.order = 0 := by
  have hnd : ¬ (secpN : Int) ∣ k := by
    intro hd
    have h0 := Int.emod_eq_zero_of_dvd hd
    have hn : openssl.order = (secpN : Int) := rfl
    rw [hn] at hk2
    rw [Int.emod_eq_of_lt (by omega) hk2] at h0
    omega
  have hne : openssl.smul k openssl.G ≠ none := by
    intro h
    have h' : secpMul k secpG = none := h
    have hz : k • WeierstrassCurve.Jacobian.Point.toAffine secpW.toJacobian (toVec secpG)
        = 0 := by
      rw [← (secpMul_spec k secpG valid_secpG).2, h', toVec_none_eq_zero]
    have hcop : Int.gcd k secpN = 1 := by
      rw [Int.gcd_comm]
      show Nat.gcd (secpN : Int).natAbs k.natAbs = 1
      rw [Int.natAbs_ofNat]
      exact (Nat.Prime.coprime_iff_not_dvd secpN_prime).2
        (fun hd => hnd (Int.natCast_dvd.2 hd))
    have hb := Int.gcd_eq_gcd_ab k secpN
    rw [hcop] at hb
    have hG : WeierstrassCurve.Jacobian.Point.toAffine secpW.toJacobian (toVec secpG) = 0 := by
      have : ((1 : Nat) : Int) •
          WeierstrassCurve.Jacobian.Point.toAffine secpW.toJacobian (toVec secpG) = 0 := by
        rw [hb, add_smul, mul_comm k, mul_smul, hz, smul_zero, mul_comm (secpN : Int), mul_smul,
          secpN_smul_G, smul_zero, add_zero]
      simpa using this
    exact absurd ((toVec_eq_zero_iff secpG valid_secpG).1 hG) (by decide)
  cases hc : openssl.smul k openssl.G with
  | none => exact absurd hc hne
  | some xy =>
    obtain ⟨x, y⟩ := xy
    refine ⟨x, y, _, _, hc, (gen_r_openssl r0 k x y hc).1, rfl, ?_⟩
    split_ifs
    · have : -k - (openssl.order - k) = openssl.order * (-1) := by ring
      rw [this, Int.mul_emod_right]
    · simp

/-- C19: for every scalar `k` that is a multiple of the group order, `k * G` is the point at
infinity, `gen_r` returns 0, and `schnorr_sign` returns 0 when `BN_rand` draws that `k`. -/
theorem gen_r_zero_nonce (r0 : List Nat) (k a : Int) (msg : List Nat)
    (hk : k % openssl.order = 0) :
    openssl.isInf (EC_POINT_mul openssl none openssl.G k) = true ∧
    gen_r openssl r0 k = none ∧ schnorr_sign openssl r0 k a msg = none := by
  have h0 : openssl.smul k openssl.G = none := by
    rw [openssl_smul_congr k 0 (by simpa using hk)]
    rfl
  have hc : openssl.coords (EC_POINT_mul openssl none openssl.G k) = none := h0
  have hg : gen_r openssl r0 k = none := by
    unfold gen_r
    simp only [hc]
  refine ⟨?_, hg, ?_⟩
  · show (openssl.smul k openssl.G).isNone = true
    rw [h0]; rfl
  · unfold schnorr_sign
    simp only [hg]

/-! ## Verification on secp256k1 -/

/-- C20: `schnorr_verify` puts no lower bound on `s`: for `s` and `s'` both below the group
order and congruent modulo it (such as `s' = s - n`), the result on `(r, s')` is the result on
`(r, s)`, for every public key and message. -/
theorem schnorr_verify_s_congr (x0 r : List Nat) (s s' : Int) (A : openssl.Point)
    (msg : List Nat) (hs : s < openssl.order) (hs' : s' < openssl.order)
    (hc : (s - s') % openssl.order = 0) :
    schnorr_verify openssl x0 ⟨r, s'⟩ A msg = schnorr_verify openssl x0 ⟨r, s⟩ A msg := by
  have e : ∀ h : Int, EC_POINT_mul openssl (some s') A h = EC_POINT_mul openssl (some s) A h := by
    intro h
    show openssl.add (openssl.smul s' openssl.G) _ = openssl.add (openssl.smul s openssl.G) _
    rw [openssl_smul_congr s s' hc]
  unfold schnorr_verify
  simp only [e]
  have c1 : ¬ BN_cmp s' openssl.order ≠ -1 := by rw [BN_cmp_ne_neg_one]; omega
  have c2 : ¬ BN_cmp s openssl.order ≠ -1 := by rw [BN_cmp_ne_neg_one]; omega
  rw [if_neg c1, if_neg c2]

/-! ## MuSig aggregation -/

/-- What a successful `musig_sign` returns. -/
theorem musig_sign_some (L : Lib) (E : musig_env L) (key : committed_r_key L.Point)
    (pubkeys : List (committed_r_pubkey L.Point)) (msg : List Nat) (sig : schnorr_sig)
    (A : L.Point) (h : musig_sign L E key pubkeys msg = some (sig, A)) :
    ∃ rstar ai hh, musig_combine L E pubkeys = some (A, rstar) ∧
      musig_coeff L E (musig_L L E pubkeys) key.pub.A = some ai ∧
      gen_h L msg rstar = (1, hh) ∧ sig = ⟨rstar, (key.k - hh * ai * key.a) % L.order⟩ := by
  unfold musig_sign at h
  cases hc : musig_combine L E pubkeys with
  | none => simp [hc] at h
  | some Ar =>
    obtain ⟨Astar, rstar⟩ := Ar
    cases ha : musig_coeff L E (musig_L L E pubkeys) key.pub.A with
    | none => simp [hc, ha] at h
    | some ai =>
      simp only [hc, ha] at h
      split_ifs at h with hcode
      simp only [Option.some.injEq, Prod.mk.injEq] at h
      obtain ⟨h1, h2⟩ := h
      subst h2
      refine ⟨rstar, ai, (gen_h L msg rstar).2, rfl, rfl, ?_, h1.symm⟩
      have : (gen_h L msg rstar).1 = 1 := by simpa using hcode
      rw [← this]

/-- What a combined key of two public keys is. -/
theorem musig_combine_two (L : Lib) (E : musig_env L) (P1 P2 : committed_r_pubkey L.Point)
    (Astar : L.Point) (rstar : List Nat)
    (h : musig_combine L E [P1, P2] = some (Astar, rstar)) :
    ∃ a1 a2 R1 R2 Rx Ry,
      musig_coeff L E (musig_L L E [P1, P2]) P1.A = some a1 ∧
      musig_coeff L E (musig_L L E [P1, P2]) P2.A = some a2 ∧
      E.point_of_r P1.r = some R1 ∧ E.point_of_r P2.r = some R2 ∧
      Astar = L.add (L.smul a1 P1.A) (L.smul a2 P2.A) ∧
      L.coords (L.add R1 R2) = some (Rx, Ry) ∧ BN_is_odd (Ry : Int) = false ∧
      rstar = beBytes 32 Rx := by
  unfold musig_combine at h
  simp only [List.map] at h
  cases h1 : musig_coeff L E (musig_L L E [P1, P2]) P1.A with
  | none => simp [h1, allSome] at h
  | some a1 =>
    cases h2 : musig_coeff L E (musig_L L E [P1, P2]) P2.A with
    | none => simp [h1, h2, allSome] at h
    | some a2 =>
      cases h3 : E.point_of_r P1.r with
      | none => simp [h1, h2, h3, allSome] at h
      | some R1 =>
        cases h4 : E.point_of_r P2.r with
        | none => simp [h1, h2, h3, h4, allSome] at h
        | some R2 =>
          simp only [h1, h2, h3, h4, allSome, Option.map, point_sum, List.foldl] at h
          cases h5 : L.coords (L.add R1 R2) with
          | none => simp [h5] at h
          | some xy =>
            obtain ⟨Rx, Ry⟩ := xy
            simp only [h5] at h
            split_ifs at h with hodd
            simp only [Option.some.injEq, Prod.mk.injEq] at h
            exact ⟨a1, a2, R1, R2, Rx, Ry, rfl, rfl, rfl, rfl, h.1.symm, h5,
              by simpa using hodd, h.2.symm⟩

/-- C15: on secp256k1, for every two committed-R keys (`A_i = x_i * G`, published point
`R_i = k_i * G`) and every message, when each signer's `musig_sign` on the message against the
same list of the two public keys returns a partial signature, both calls return the same
combined public key, `musig_aggregate` succeeds on the two partial signatures, and
`musig_verify` of the aggregate against the combined public key returns 1. -/
theorem musig_aggregate_verifies (E : musig_env openssl)
    (key1 key2 : committed_r_key openssl.Point) (msg : List Nat)
    (sig1 sig2 : schnorr_sig) (pub1 pub2 : openssl.Point)
    (hA1 : key1.pub.A = EC_POINT_mul openssl none openssl.G key1.a)
    (hA2 : key2.pub.A = EC_POINT_mul openssl none openssl.G key2.a)
    (hR1 : E.point_of_r key1.pub.r = some (EC_POINT_mul openssl none openssl.G key1.k))
    (hR2 : E.point_of_r key2.pub.r = some (EC_POINT_mul openssl none openssl.G key2.k))
    (h1 : musig_sign openssl E key1 [key1.pub, key2.pub] msg = some (sig1, pub1))
    (h2 : musig_sign openssl E key2 [key1.pub, key2.pub] msg = some (sig2, pub2)) :
    pub1 = pub2 ∧ ∃ agg, musig_aggregate openssl [sig1, sig2] = some agg ∧
      musig_verify openssl agg pub2 msg = 1 := by
  obtain ⟨rs1, c1, hh1, hc1, hco1, hg1, rfl⟩ := musig_sign_some _ _ _ _ _ _ _ h1
  obtain ⟨rs2, c2, hh2, hc2, hco2, hg2, rfl⟩ := musig_sign_some _ _ _ _ _ _ _ h2
  rw [hc1] at hc2
  simp only [Option.some.injEq, Prod.mk.injEq] at hc2
  obtain ⟨rfl, rfl⟩ := hc2
  rw [hg1] at hg2
  cases hg2
  obtain ⟨a1, a2, R1, R2, Rx, Ry, ha1, ha2, hp1, hp2, hAs, hco, heven, hrs⟩ :=
    musig_combine_two _ _ _ _ _ _ hc1
  rw [hco1] at ha1
  cases ha1
  rw [hco2] at ha2
  cases ha2
  rw [hR1] at hp1
  cases hp1
  rw [hR2] at hp2
  cases hp2
  have hn : (0 : Int) < openssl.order := by decide
  have hco' : openssl.add (EC_POINT_mul openssl none openssl.G key1.k)
      (EC_POINT_mul openssl none openssl.G key2.k) = some (Rx, Ry) := hco
  have hpt : EC_POINT_mul openssl (some (((key1.k - hh1 * c1 * key1.a) % openssl.order +
        ((key2.k - hh1 * c2 * key2.a) % openssl.order + 0)) % openssl.order)) pub1 hh1
      = openssl.add (EC_POINT_mul openssl none openssl.G key1.k)
          (EC_POINT_mul openssl none openssl.G key2.k) := by
    rw [hAs, hA1, hA2]
    have hs : ((((key1.k - hh1 * c1 * key1.a) % openssl.order +
        ((key2.k - hh1 * c2 * key2.a) % openssl.order + 0)) % openssl.order) -
        (key1.k + key2.k - hh1 * (c1 * key1.a + c2 * key2.a))) % openssl.order = 0 := by
      rw [← Int.emod_eq_emod_iff_emod_sub_eq_zero]
      simp only [add_zero, Int.emod_emod_of_dvd _ (dvd_refl _), Int.emod_add_emod,
        Int.add_emod_emod]
      congr 1
      ring
    show secpAdd (secpMul _ secpG) (secpMul hh1
        (secpAdd (secpMul c1 (secpMul key1.a secpG)) (secpMul c2 (secpMul key2.a secpG))))
      = secpAdd (secpMul key1.k secpG) (secpMul key2.k secpG)
    rw [show secpMul _ secpG = secpMul (key1.k + key2.k - hh1 * (c1 * key1.a + c2 * key2.a))
      secpG from openssl_smul_congr _ _ hs]
    obtain ⟨vt, et⟩ := secpMul_spec (key1.k + key2.k - hh1 * (c1 * key1.a + c2 * key2.a))
      secpG valid_secpG
    obtain ⟨vx1, ex1⟩ := secpMul_spec key1.a secpG valid_secpG
    obtain ⟨vx2, ex2⟩ := secpMul_spec key2.a secpG valid_secpG
    obtain ⟨va1, ea1⟩ := secpMul_spec c1 _ vx1
    obtain ⟨va2, ea2⟩ := secpMul_spec c2 _ vx2
    obtain ⟨vA, eA⟩ := secpAdd_spec _ _ va1 va2
    obtain ⟨vh, eh⟩ := secpMul_spec hh1 _ vA
    obtain ⟨vl, el⟩ := secpAdd_spec _ _ vt vh
    obtain ⟨vk1, ek1⟩ := secpMul_spec key1.k secpG valid_secpG
    obtain ⟨vk2, ek2⟩ := secpMul_spec key2.k secpG valid_secpG
    obtain ⟨vr, er⟩ := secpAdd_spec _ _ vk1 vk2
    apply toVec_injective _ _ vl vr
    rw [el, et, eh, eA, ea1, ea2, ex1, ex2, er, ek1, ek2]
    module
  have hodd : ¬ Ry % 2 = 1 := by
    intro h
    simp [BN_is_odd, h] at heven
  have hinf : openssl.isInf (openssl.add (EC_POINT_mul openssl none openssl.G key1.k)
      (EC_POINT_mul openssl none openssl.G key2.k)) = false := by
    show (openssl.add (EC_POINT_mul openssl none openssl.G key1.k)
      (EC_POINT_mul openssl none openssl.G key2.k)).isNone = false
    rw [hco']
    rfl
  refine ⟨rfl, _, rfl, ?_⟩
  unfold musig_verify
  simp only [List.map, List.sum_cons, List.sum_nil]
  rw [if_neg (not_le.2 (Int.emod_lt_of_pos _ hn))]
  simp only [hg1, ne_eq, not_true_eq_false, if_false, hpt, hinf, hco, Bool.false_eq_true]
  rw [if_neg hodd, hrs, List.take_of_length_le (by rw [beBytes_length]), if_pos rfl]

/-! ## Evaluation steps shared by the worked examples -/

/-- The result of `gen_h` from the number its second digest encodes, when it is accepted. -/
theorem gen_h_of_digest (L : Lib) (msg r : List Nat) (h : Int)
    (hh : BN_bin2bn (hash L (r.take 32 ++ (hash L msg).take 32)) 32 = h)
    (h0 : h ≠ 0) (hn : h < L.order) : gen_h L msg r = (1, h) := by
  unfold gen_h
  simp only [hh]
  rw [if_neg h0, if_neg (by rw [BN_cmp_ne_neg_one]; omega)]

/-- The signature `schnorr_sign` returns, from the results of `gen_r` and `gen_h`. -/
theorem schnorr_sign_of (L : Lib) (r0 : List Nat) (k0 a : Int) (msg r : List Nat) (k c h : Int)
    (hg : gen_r L r0 k0 = some (r, k)) (hh : gen_h L msg r = (c, h)) (hc : c ≠ 0) :
    schnorr_sign L r0 k0 a msg = some ⟨r, k - h * a⟩ := by
  unfold schnorr_sign
  simp only [hg, hh]
  rw [if_neg hc]

/-- The number `committed_r_sign` returns, from the result of `gen_h`. -/
theorem committed_r_sign_of (L : Lib) (key : committed_r_key L.Point) (msg : List Nat)
    (c h : Int) (hh : gen_h L msg key.pub.r = (c, h)) (hc : c ≠ 0) :
    committed_r_sign L key msg = some (key.k - h * key.a) := by
  unfold committed_r_sign
  simp only [hh]
  rw [if_neg hc]

/-- The result of `schnorr_verify` on secp256k1 once the hash is accepted and
`s * G + h * A` is the affine point `(Rx, Ry)`. -/
theorem schnorr_verify_of (x0 : List Nat) (sig : schnorr_sig) (A : openssl.Point)
    (msg : List Nat) (h : Int) (Rx Ry : Nat) (hs : sig.s < openssl.order)
    (hh : gen_h openssl msg sig.r = (1, h))
    (hc : openssl.coords (EC_POINT_mul openssl (some sig.s) A h) = some (Rx, Ry)) :
    schnorr_verify openssl x0 sig A msg =
      if BN_is_odd (Ry : Int) then -1
      else if (BN_bn2bin (Rx : Int)).length ≤ 0 then 0
      else if memEq (writeBuf x0 (BN_bn2bin (Rx : Int))) sig.r 32 then 1 else -1 := by
  have hR : EC_POINT_mul openssl (some sig.s) A h = some (Rx, Ry) := hc
  have hinf : openssl.isInf (EC_POINT_mul openssl (some sig.s) A h) = false := by
    show (EC_POINT_mul openssl (some sig.s) A h).isNone = false
    rw [hR]; rfl
  unfold schnorr_verify
  rw [if_neg (by rw [BN_cmp_ne_neg_one]; omega)]
  simp only [hh, hc, hinf, ne_eq, not_true_eq_false, if_false, Bool.false_eq_true]

/-- The result of `committed_r_verify` on secp256k1 once the hash is accepted and
`s * G + h * A` is the affine point `(Rx, Ry)`. -/
theorem committed_r_verify_of (x0 : List Nat) (s : Int)
    (pubkey : committed_r_pubkey openssl.Point) (msg : List Nat) (h : Int) (Rx Ry : Nat)
    (hs : s < openssl.order) (hh : gen_h openssl msg pubkey.r = (1, h))
    (hc : openssl.coords (EC_POINT_mul openssl (some s) pubkey.A h) = some (Rx, Ry)) :
    committed_r_verify openssl x0 s pubkey msg =
      if BN_is_odd (Ry : Int) then -1
      else if (BN_bn2bin (Rx : Int)).length ≤ 0 then 0
      else if memEq (writeBuf x0 (BN_bn2bin (Rx : Int))) (pubkey.r.take 32) 32 then 1
      else -1 :=
  schnorr_verify_of x0 ⟨pubkey.r.take 32, s⟩ pubkey.A msg h Rx Ry hs
    ((gen_h_take openssl msg pubkey.r).trans hh) hc

/-- The function `committed_r_verify` is `schnorr_verify` on the first 32 bytes of the `r` of
the public key. -/
theorem committed_r_verify_def (L : Lib) (x0 : List Nat) (s : Int)
    (pubkey : committed_r_pubkey L.Point) (msg : List Nat) :
    committed_r_verify L x0 s pubkey msg
      = schnorr_verify L x0 ⟨pubkey.r.take 32, s⟩ pubkey.A msg := rfl

/-- The coefficient of a public key from the number its digest encodes, when it is accepted. -/
theorem musig_coeff_of (L : Lib) (E : musig_env L) (Lh : List Nat) (A : L.Point) (h : Int)
    (hh : BN_bin2bn (hash L (Lh ++ E.encode A)) 32 = h) (h0 : h ≠ 0) (hn : h < L.order) :
    musig_coeff L E Lh A = some h := by
  unfold musig_coeff
  simp only [hh]
  rw [if_neg h0, if_neg (by rw [BN_cmp_ne_neg_one]; omega)]

/-- The combined key of two public keys, from their coefficients, their published points and the
coordinates of the sum of these. -/
theorem musig_combine_two_of (L : Lib) (E : musig_env L) (P1 P2 : committed_r_pubkey L.Point)
    (a1 a2 : Int) (R1 R2 : L.Point) (Rx Ry : Nat)
    (h1 : musig_coeff L E (musig_L L E [P1, P2]) P1.A = some a1)
    (h2 : musig_coeff L E (musig_L L E [P1, P2]) P2.A = some a2)
    (h3 : E.point_of_r P1.r = some R1) (h4 : E.point_of_r P2.r = some R2)
    (h5 : L.coords (L.add R1 R2) = some (Rx, Ry)) :
    musig_combine L E [P1, P2] =
      if BN_is_odd (Ry : Int) then none
      else some (L.add (L.smul a1 P1.A) (L.smul a2 P2.A), beBytes 32 Rx) := by
  unfold musig_combine
  simp only [List.map, h1, h2, h3, h4, allSome, Option.map, point_sum, List.foldl, h5]

/-- The partial signature `musig_sign` returns, from the combined key, the coefficient of the
signer and the hash. -/
theorem musig_sign_of (L : Lib) (E : musig_env L) (key : committed_r_key L.Point)
    (pubkeys : List (committed_r_pubkey L.Point)) (msg : List Nat) (A : L.Point)
    (rs : List Nat) (ai h : Int)
    (hc : musig_combine L E pubkeys = some (A, rs))
    (ha : musig_coeff L E (musig_L L E pubkeys) key.pub.A = some ai)
    (hh : gen_h L msg rs = (1, h)) :
    musig_sign L E key pubkeys msg
      = some (⟨rs, (key.k - h * ai * key.a) % L.order⟩, A) := by
  unfold musig_sign
  simp only [hc, ha, hh, ne_eq, not_true_eq_false, if_false]

/-! ## Evaluations shared by the worked examples -/

set_option maxRecDepth 1000000 in
/-- The hash of `"hello"` against 32 zero bytes. -/
theorem gen_h_hello_zeros : gen_h openssl msgHello zeros32 = (1, hashHelloZeros) :=
  gen_h_of_digest openssl msgHello zeros32 hashHelloZeros (by decide!) (by decide!) (by decide!)

set_option maxRecDepth 1000000 in
/-- The hash of `"hello"` against the `r` of `sig153`. -/
theorem gen_h_hello_sig153 : gen_h openssl msgHello sig153.r = (1, hashHelloSig153) :=
  gen_h_of_digest openssl msgHello sig153.r hashHelloSig153 (by decide!) (by decide!)
    (by decide!)

set_option maxRecDepth 1000000 in
/-- The hash of `"hello"` against the `r` of a public key as `gen_r` leaves it for the nonce
153 in memory holding zero bytes. -/
theorem gen_h_hello_unpadded :
    gen_h openssl msgHello (⟨openssl.G, r153 ++ [0]⟩ : committed_r_pubkey openssl.Point).r
      = (1, hashHelloSig153) :=
  (congrArg (gen_h openssl msgHello)
    (by decide! : (⟨openssl.G, r153 ++ [0]⟩ : committed_r_pubkey openssl.Point).r
      = sig153.r)).trans gen_h_hello_sig153

set_option maxRecDepth 1000000 in
/-- The hash of `"hello"` against the `r` of `keyPadded`. -/
theorem gen_h_hello_padded : gen_h openssl msgHello keyPadded.pub.r = (1, hashHello153) :=
  gen_h_of_digest openssl msgHello keyPadded.pub.r hashHello153 (by decide!) (by decide!)
    (by decide!)

set_option maxRecDepth 1000000 in
/-- The hash of `"hellO"` against the `r` of `keyPadded`. -/
theorem gen_h_hellO_padded : gen_h openssl msgHellO keyPadded.pub.r = (1, hashHellO153) :=
  gen_h_of_digest openssl msgHellO keyPadded.pub.r hashHellO153 (by decide!) (by decide!)
    (by decide!)

set_option maxRecDepth 1000000 in
/-- The hash of `"hello"` against `rG`. -/
theorem gen_h_hello_rG : gen_h openssl msgHello rG = (1, hashHelloG) :=
  gen_h_of_digest openssl msgHello rG hashHelloG (by decide!) (by decide!) (by decide!)

set_option maxRecDepth 1000000 in
/-- The hash of `"hellO"` against `rG`. -/
theorem gen_h_hellO_rG : gen_h openssl msgHellO rG = (1, hashHellOG) :=
  gen_h_of_digest openssl msgHellO rG hashHellOG (by decide!) (by decide!) (by decide!)

set_option maxRecDepth 1000000 in
/-- The hash of `"hellO"` against the `r` of `sig1158`. -/
theorem gen_h_hellO_sig1158 : gen_h openssl msgHellO sig1158.r = (1, hashHellOSig1158) :=
  gen_h_of_digest openssl msgHellO sig1158.r hashHellOSig1158 (by decide!) (by decide!)
    (by decide!)

set_option maxRecDepth 1000000 in
/-- The hash of `"hello"` against `rM12`. -/
theorem gen_h_hello_rM12 : gen_h openssl msgHello rM12 = (1, hashHelloM12) :=
  gen_h_of_digest openssl msgHello rM12 hashHelloM12 (by decide!) (by decide!) (by decide!)

set_option maxRecDepth 1000000 in
/-- What `gen_r` leaves for the nonce 153 in memory holding zero bytes. -/
theorem gen_r_153_zeros : gen_r openssl zeros32 153 = some (sig153.r, 153) := by decide!

set_option maxRecDepth 1000000 in
/-- What `gen_r` leaves for the nonce 1158 in memory holding zero bytes. -/
theorem gen_r_1158_zeros : gen_r openssl zeros32 1158 = some (sig1158.r, -1158) := by decide!

set_option maxRecDepth 1000000 in
/-- What `gen_r` leaves for the nonce 1 in memory holding zero bytes. -/
theorem gen_r_1_zeros : gen_r openssl zeros32 1 = some (rG, 1) := by decide!

set_option maxRecDepth 1000000 in
/-- On `sig153` and the key `A = G`, `s * G + h * A` is `153 * G`. -/
theorem point_sig153 :
    openssl.coords (EC_POINT_mul openssl (some sig153.s) openssl.G hashHelloSig153)
      = some (x153, y153) := by
  decide!

set_option maxRecDepth 1000000 in
/-- On the signature of `keyPadded` for `"hello"`, `s * G + h * A` is `153 * G`. -/
theorem point_padded :
    openssl.coords (EC_POINT_mul openssl (some (153 - hashHello153)) keyPadded.pub.A
      hashHello153) = some (x153, y153) := by
  decide!

set_option maxRecDepth 1000000 in
/-- With `s = -h` and `A = G`, `s * G + h * A` is the point at infinity. -/
theorem point_infinity :
    openssl.coords (EC_POINT_mul openssl (some (-hashHelloZeros)) openssl.G hashHelloZeros)
      = none := by
  decide!

set_option maxRecDepth 1000000 in
/-- On the signature of the key `a = 1` with the nonce 1, `s * G + h * A` is `G`. -/
theorem point_sigG :
    openssl.coords (EC_POINT_mul openssl (some (1 - hashHelloG)) openssl.G hashHelloG)
      = some (55066263022277343669578718895168534326250603453777594175500187360389116729240,
          32670510020758816978083085130507043184471273380659243275938904335757337482424) := by
  decide!

set_option maxRecDepth 1000000 in
/-- The signature `schnorr_sign` makes for the key `a = 1`, `"hello"` and the nonce 153. -/
theorem sign_153 : schnorr_sign openssl zeros32 153 1 msgHello = some sig153 :=
  (schnorr_sign_of openssl zeros32 153 1 msgHello sig153.r 153 1 hashHelloSig153
    gen_r_153_zeros gen_h_hello_sig153 (by decide)).trans (by decide!)

set_option maxRecDepth 1000000 in
/-- The recovery of `keyG` from its signatures of `"hello"` and `"hellO"`, whatever the point
of the public key supplied. -/
theorem recover_keyG :
    committed_r_recover openssl zeros32 (1 - hashHelloG) msgHello (1 - hashHellOG) msgHellO
      pubOther = some keyG :=
  (committed_r_recover_eq openssl zeros32 (1 - hashHelloG) (1 - hashHellOG) msgHello msgHellO
    pubOther hashHelloG hashHellOG gen_h_hello_rG gen_h_hellO_rG (by decide!)).trans
    (by decide!)

set_option maxRecDepth 1000000 in
/-- The hash of `"hello"` against the `r` of `keyG`. -/
theorem gen_h_hello_keyG : gen_h openssl msgHello keyG.pub.r = (1, hashHelloG) :=
  (congrArg (gen_h openssl msgHello) (by decide! : keyG.pub.r = rG)).trans gen_h_hello_rG

set_option maxRecDepth 1000000 in
/-- The hash of `"hellO"` against the `r` of `keyG`. -/
theorem gen_h_hellO_keyG : gen_h openssl msgHellO keyG.pub.r = (1, hashHellOG) :=
  (congrArg (gen_h openssl msgHellO) (by decide! : keyG.pub.r = rG)).trans gen_h_hellO_rG

set_option maxRecDepth 1000000 in
/-- The coefficient of the public key of `keyM1` in the list of `keyM1` and `keyM2`. -/
theorem coeff_M12_1 :
    musig_coeff openssl opensslMusig (musig_L openssl opensslMusig [keyM1.pub, keyM2.pub])
      keyM1.pub.A = some coeffM1 :=
  musig_coeff_of openssl opensslMusig _ keyM1.pub.A coeffM1 (by decide!) (by decide!)
    (by decide!)

set_option maxRecDepth 1000000 in
/-- The coefficient of the public key of `keyM2` in the list of `keyM1` and `keyM2`. -/
theorem coeff_M12_2 :
    musig_coeff openssl opensslMusig (musig_L openssl opensslMusig [keyM1.pub, keyM2.pub])
      keyM2.pub.A = some coeffM2 :=
  musig_coeff_of openssl opensslMusig _ keyM2.pub.A coeffM2 (by decide!) (by decide!)
    (by decide!)

set_option maxRecDepth 1000000 in
/-- The point `keyM1` publishes is `2 * G`. -/
theorem lift_M1 :
    opensslMusig.point_of_r keyM1.pub.r = some (EC_POINT_mul openssl none openssl.G keyM1.k) := by
  decide!

set_option maxRecDepth 1000000 in
/-- The point `keyM2` publishes is `151 * G`. -/
theorem lift_M2 :
    opensslMusig.point_of_r keyM2.pub.r = some (EC_POINT_mul openssl none openssl.G keyM2.k) := by
  decide!

set_option maxRecDepth 1000000 in
/-- The sum `2 * G + 151 * G` of the points `keyM1` and `keyM2` publish is `153 * G`: its Y is
even and its X takes 31 bytes. -/
theorem sum_M12 :
    openssl.coords (openssl.add (EC_POINT_mul openssl none openssl.G keyM1.k)
      (EC_POINT_mul openssl none openssl.G keyM2.k)) = some (x153, y153) := by
  decide!

set_option maxRecDepth 1000000 in
/-- The combined public key `A*` of `keyM1` and `keyM2`. -/
theorem astar_M12 :
    openssl.add (openssl.smul coeffM1 keyM1.pub.A) (openssl.smul coeffM2 keyM2.pub.A)
      = pubM12 := by
  decide!

set_option maxRecDepth 1000000 in
/-- The combined key of `keyM1` and `keyM2`. -/
theorem combine_M12 :
    musig_combine openssl opensslMusig [keyM1.pub, keyM2.pub] = some (pubM12, rM12) := by
  rw [musig_combine_two_of openssl opensslMusig keyM1.pub keyM2.pub coeffM1 coeffM2 _ _ _ _
    coeff_M12_1 coeff_M12_2 lift_M1 lift_M2 sum_M12, astar_M12]
  decide!

/-! ## Worked examples on secp256k1 with SHA-256 -/

set_option maxRecDepth 1000000 in
/-- C1 (failing input): key `a = 1`, `A = 1 * G`, message `"hello"`, drawn nonce 153.
`schnorr_sign` succeeds; the X-coordinate of `153 * G` takes 31 bytes, so byte 31 of `r` keeps
what `malloc` left (0 here) and byte 31 of the array `x` of `schnorr_verify` keeps what the
stack held (`0xFF` here): `schnorr_verify` returns -1 on the signature just made. -/
theorem schnorr_round_trip_short_x :
    schnorr_sign openssl zeros32 153 1 msgHello = some sig153 ∧
    schnorr_verify openssl ones32 sig153 (EC_POINT_mul openssl none openssl.G 1) msgHello = -1 :=
  ⟨sign_153,
   (schnorr_verify_of ones32 sig153 (EC_POINT_mul openssl none openssl.G 1) msgHello
      hashHelloSig153 x153 y153 (by decide!) gen_h_hello_sig153
      ((congrArg
        (fun A => openssl.coords (EC_POINT_mul openssl (some sig153.s) A hashHelloSig153))
        (by decide! : EC_POINT_mul openssl none openssl.G 1 = openssl.G)).trans
        point_sig153)).trans (by decide!)⟩

set_option maxRecDepth 1000000 in
/-- C3 (failing input): the committed-R key `keyPadded` satisfies the key invariants with `r`
zero-padded to 32 bytes, `committed_r_sign` on `"hello"` succeeds, and `committed_r_verify`
returns -1: `schnorr_verify` writes the 31 unpadded bytes of the X-coordinate at the start of
`x`, so byte 0 already differs from the padded `r`, whatever the stack held (zero bytes and
`0xFF` bytes here). With `r` as `gen_r` leaves it (31 bytes, then a stale zero byte) the result
is -1 as well when the stack held `0xFF` bytes. -/
theorem committed_r_round_trip_short_x :
    keyPadded.pub.A = EC_POINT_mul openssl none openssl.G keyPadded.a ∧
    openssl.coords (EC_POINT_mul openssl none openssl.G keyPadded.k) = some (x153, y153) ∧
    y153 % 2 = 0 ∧ keyPadded.pub.r = beBytes 32 x153 ∧
    committed_r_sign openssl keyPadded msgHello = some (153 - hashHello153) ∧
    committed_r_verify openssl zeros32 (153 - hashHello153) keyPadded.pub msgHello = -1 ∧
    committed_r_verify openssl ones32 (153 - hashHello153) keyPadded.pub msgHello = -1 ∧
    committed_r_sign openssl ⟨1, 153, ⟨openssl.G, r153 ++ [0]⟩⟩ msgHello = some sig153.s ∧
    committed_r_verify openssl ones32 sig153.s ⟨openssl.G, r153 ++ [0]⟩ msgHello = -1 :=
  ⟨by decide!, by decide!, by decide!, by decide!,
   (committed_r_sign_of openssl keyPadded msgHello 1 hashHello153 gen_h_hello_padded
      (by decide)).trans (by decide!),
   (committed_r_verify_of zeros32 (153 - hashHello153) keyPadded.pub msgHello hashHello153
      x153 y153 (by decide!) gen_h_hello_padded point_padded).trans (by decide!),
   (committed_r_verify_of ones32 (153 - hashHello153) keyPadded.pub msgHello hashHello153
      x153 y153 (by decide!) gen_h_hello_padded point_padded).trans (by decide!),
   (committed_r_sign_of openssl ⟨1, 153, ⟨openssl.G, r153 ++ [0]⟩⟩ msgHello 1 hashHelloSig153
      gen_h_hello_unpadded (by decide)).trans (by decide!),
   (committed_r_verify_of ones32 sig153.s ⟨openssl.G, r153 ++ [0]⟩ msgHello hashHelloSig153
      x153 y153 (by decide!) gen_h_hello_unpadded point_sig153).trans (by decide!)⟩

set_option maxRecDepth 1000000 in
/-- C4 (failing input): `schnorr_verify` returns 1 on `sig153` for the key `A = G` and the
message `"hello"` when the stack array `x` held zero bytes, although the X-coordinate of
`s * G + h * A` is not the big-endian value of the 32 bytes `r` (it is that value divided
by 256). -/
theorem schnorr_verify_valid_x_mismatch :
    schnorr_verify openssl zeros32 sig153 openssl.G msgHello = 1 ∧
    openssl.coords (EC_POINT_mul openssl (some sig153.s) openssl.G
      (gen_h openssl msgHello sig153.r).2) = some (x153, y153) ∧
    (x153 : Int) ≠ BN_bin2bn sig153.r 32 ∧ BN_bin2bn sig153.r 32 = (x153 : Int) * 256 :=
  ⟨(schnorr_verify_of zeros32 sig153 openssl.G msgHello hashHelloSig153 x153 y153
      (by decide!) gen_h_hello_sig153 point_sig153).trans (by decide!),
   (congrArg
      (fun c : Int × Int => openssl.coords (EC_POINT_mul openssl (some sig153.s) openssl.G c.2))
      gen_h_hello_sig153).trans point_sig153,
   by decide!, by decide!⟩

set_option maxRecDepth 1000000 in
/-- Witness of `sign_accepts_rejected_hash`: with the digest fixed to 32 bytes `0xFF`, the hash
is rejected and both signers return a signature. -/
theorem sign_accepts_rejected_hash_witness :
    gen_r opensslFF zeros32 1 = some (rG, 1) ∧
    (gen_h opensslFF msgHello rG).1 = -1 ∧
    (gen_h opensslFF msgHello
      (⟨1, 1, ⟨opensslFF.G, rG⟩⟩ : committed_r_key opensslFF.Point).pub.r).1 = -1 ∧
    (schnorr_sign opensslFF zeros32 1 1 msgHello
        = some ⟨rG, 1 - (gen_h opensslFF msgHello rG).2 * 1⟩ ∧
      committed_r_sign opensslFF ⟨1, 1, ⟨opensslFF.G, rG⟩⟩ msgHello
        = some ((1 : Int) - (gen_h opensslFF msgHello rG).2 * 1)) :=
  have hg : gen_r opensslFF zeros32 1 = some (rG, 1) := by decide!
  have h1 : (gen_h opensslFF msgHello rG).1 = -1 := by decide!
  ⟨hg, h1, h1,
   sign_accepts_rejected_hash opensslFF zeros32 1 1 msgHello rG 1 ⟨1, 1, ⟨opensslFF.G, rG⟩⟩
     hg h1 h1⟩

set_option maxRecDepth 1000000 in
/-- C6 (counterexample): for `a = 1`, the message `"hello"` and the drawn nonce 153,
`schnorr_sign` succeeds with `k' = 153` and returns an `s` that is negative, hence neither in
`[0, n)` nor equal to `(k' - h * a) mod n`. -/
theorem schnorr_sign_s_negative :
    ∃ sig r k, gen_r openssl zeros32 153 = some (r, k) ∧
      schnorr_sign openssl zeros32 153 1 msgHello = some sig ∧
      sig.s ≠ (k - (gen_h openssl msgHello r).2 * 1) % openssl.order ∧
      ¬ (0 ≤ sig.s ∧ sig.s < openssl.order) :=
  ⟨sig153, sig153.r, 153, gen_r_153_zeros, sign_153,
   (congrArg (fun c : Int × Int => sig153.s ≠ (153 - c.2 * 1) % openssl.order)
      gen_h_hello_sig153).mpr (by decide!),
   by decide!⟩

set_option maxRecDepth 1000000 in
/-- Witness of `schnorr_sign_s_unreduced`: key `a = 12345`, message `"hellO"`, drawn nonce 1158,
which `gen_r` negates. -/
theorem schnorr_sign_s_unreduced_witness :
    schnorr_sign openssl zeros32 1158 12345 msgHellO = some sig1158 ∧
    ∃ r k, gen_r openssl zeros32 1158 = some (r, k) ∧ sig1158.r = r ∧
      sig1158.s = k - (gen_h openssl msgHellO r).2 * 12345 :=
  have hs : schnorr_sign openssl zeros32 1158 12345 msgHellO = some sig1158 :=
    (schnorr_sign_of openssl zeros32 1158 12345 msgHellO sig1158.r (-1158) 1 hashHellOSig1158
      gen_r_1158_zeros gen_h_hellO_sig1158 (by decide)).trans (by decide!)
  ⟨hs, schnorr_sign_s_unreduced openssl zeros32 1158 12345 msgHellO sig1158 hs⟩

set_option maxRecDepth 1000000 in
/-- C7 (failing input): for the nonce 153 `gen_r` succeeds and writes the 31 bytes of the
X-coordinate at `r[0..30]`, leaving `r[31]` as it was (`0xFF` here); the 32-byte zero-padded
encoding starts with a zero byte instead. -/
theorem gen_r_short_x_unpadded :
    gen_r openssl ones32 153 = some (r153 ++ [255], 153) ∧
    openssl.coords (EC_POINT_mul openssl none openssl.G 153) = some (x153, y153) ∧
    beBytes 32 x153 = 0 :: r153 ∧ r153 ++ [255] ≠ beBytes 32 x153 :=
  ⟨by decide!, by decide!, by decide!, by decide!⟩

set_option maxRecDepth 1000000 in
/-- Witness of `schnorr_verify_s_out_of_range`: `s = n`. -/
theorem schnorr_verify_s_out_of_range_witness :
    openssl.order ≤ (⟨rG, secpN⟩ : schnorr_sig).s ∧
    schnorr_verify openssl zeros32 ⟨rG, secpN⟩ openssl.G msgHello = -1 :=
  ⟨by decide!, schnorr_verify_s_out_of_range openssl zeros32 ⟨rG, secpN⟩ openssl.G msgHello
     (by decide!)⟩

set_option maxRecDepth 1000000 in
/-- Witness of `schnorr_verify_infinity_is_error` (the failing input of C9): key `A = G`,
message `"hello"`, `r` 32 zero bytes and `s = -h`, so that `s * G + h * A` is the point at
infinity. -/
theorem schnorr_verify_infinity_is_error_witness :
    (⟨zeros32, -hashHelloZeros⟩ : schnorr_sig).s < openssl.order ∧
    gen_h openssl msgHello (⟨zeros32, -hashHelloZeros⟩ : schnorr_sig).r
      = (1, hashHelloZeros) ∧
    openssl.coords (EC_POINT_mul openssl (some (⟨zeros32, -hashHelloZeros⟩ : schnorr_sig).s)
      openssl.G hashHelloZeros) = none ∧
    schnorr_verify openssl zeros32 ⟨zeros32, -hashHelloZeros⟩ openssl.G msgHello = 0 :=
  have hs : (⟨zeros32, -hashHelloZeros⟩ : schnorr_sig).s < openssl.order := by decide!
  ⟨hs, gen_h_hello_zeros, point_infinity,
   schnorr_verify_infinity_is_error openssl zeros32 ⟨zeros32, -hashHelloZeros⟩ openssl.G
     msgHello hashHelloZeros hs gen_h_hello_zeros point_infinity⟩

set_option maxRecDepth 1000000 in
/-- C10 (counterexample): for `s1 = 0`, `s2 = 1`, the messages `"hello"` and `"hellO"` and the
public key `(G, rG)`, both hashes are accepted and different and `committed_r_recover` succeeds
with `a = 0` and `k = 1`: `a` is not `(s2 - s1) * (h1 - h2)⁻¹ mod n`, and `a * (h1 - h2)` is not
congruent to `s2 - s1` modulo `n`. -/
theorem committed_r_recover_not_modular :
    gen_h openssl msgHello rG = (1, hashHelloG) ∧
    gen_h openssl msgHellO rG = (1, hashHellOG) ∧ hashHelloG ≠ hashHellOG ∧
    committed_r_recover openssl zeros32 0 msgHello 1 msgHellO ⟨openssl.G, rG⟩
      = some ⟨0, 1, ⟨none, rG⟩⟩ ∧
    (0 : Int) ≠ recoverSpecA openssl.order 0 1 hashHelloG hashHellOG ∧
    ((0 : Int) * (hashHelloG - hashHellOG)) % openssl.order ≠ (1 - 0) % openssl.order :=
  ⟨gen_h_hello_rG, gen_h_hellO_rG, by decide!,
   (committed_r_recover_eq openssl zeros32 0 1 msgHello msgHellO ⟨openssl.G, rG⟩
      hashHelloG hashHellOG gen_h_hello_rG gen_h_hellO_rG (by decide!)).trans (by decide!),
   by decide!, by decide!⟩

set_option maxRecDepth 1000000 in
/-- Witness of `committed_r_recover_formula`: `s1 = 7`, `s2 = 3`, the messages `"hello"` and
`"hellO"`, the public key of `keyDemo`. -/
theorem committed_r_recover_formula_witness :
    gen_h openssl msgHello keyDemo.pub.r = (1, hashHello153) ∧
    gen_h openssl msgHellO keyDemo.pub.r = (1, hashHellO153) ∧
    hashHello153 ≠ hashHellO153 ∧
    committed_r_recover openssl zeros32 7 msgHello 3 msgHellO keyDemo.pub =
      (gen_r openssl zeros32
          (3 + hashHellO153 * Int.tdiv (3 - 7) (hashHello153 - hashHellO153))).map
        (fun rk => ⟨Int.tdiv (3 - 7) (hashHello153 - hashHellO153), rk.2,
          ⟨EC_POINT_mul openssl none openssl.G
            (Int.tdiv (3 - 7) (hashHello153 - hashHellO153)), rk.1⟩⟩) :=
  have hne : hashHello153 ≠ hashHellO153 := by decide!
  ⟨gen_h_hello_padded, gen_h_hellO_padded, hne,
   committed_r_recover_formula openssl zeros32 7 3 msgHello msgHellO keyDemo.pub
     hashHello153 hashHellO153 gen_h_hello_padded gen_h_hellO_padded hne⟩

set_option maxRecDepth 1000000 in
/-- Witness of `committed_r_recover_exact`: the key `keyDemo` and the messages `"hello"` and
`"hellO"` of `main.c`. -/
theorem committed_r_recover_exact_witness :
    openssl.coords (EC_POINT_mul openssl none openssl.G keyDemo.k) = some (x153, y153) ∧
    BN_is_odd (y153 : Int) = false ∧
    gen_h openssl msgHello keyDemo.pub.r = (1, hashHello153) ∧
    gen_h openssl msgHellO keyDemo.pub.r = (1, hashHellO153) ∧
    hashHello153 ≠ hashHellO153 ∧
    ∃ s1 s2 key', committed_r_sign openssl keyDemo msgHello = some s1 ∧
      committed_r_sign openssl keyDemo msgHellO = some s2 ∧
      committed_r_recover openssl zeros32 s1 msgHello s2 msgHellO keyDemo.pub = some key' ∧
      key'.a = keyDemo.a ∧ key'.k = keyDemo.k :=
  have hR : openssl.coords (EC_POINT_mul openssl none openssl.G keyDemo.k)
      = some (x153, y153) := by decide!
  have hy : BN_is_odd (y153 : Int) = false := by decide!
  have hne : hashHello153 ≠ hashHellO153 := by decide!
  ⟨hR, hy, gen_h_hello_padded, gen_h_hellO_padded, hne,
   committed_r_recover_exact zeros32 keyDemo msgHello msgHellO x153 y153
     hashHello153 hashHellO153 hR hy gen_h_hello_padded gen_h_hellO_padded hne⟩

set_option maxRecDepth 1000000 in
/-- C11 (counterexample): the key `keyG` (`a = 1`, `A = G`) signs `"hello"` and `"hellO"`;
`committed_r_recover` is given the two signatures and a public key with the same `r` but
`A = 2 * G`. It returns success and the key with `a = 1`, although `a * G` is not the `A` of
the public key supplied. -/
theorem committed_r_recover_no_check :
    committed_r_sign openssl keyG msgHello = some (1 - hashHelloG) ∧
    committed_r_sign openssl keyG msgHellO = some (1 - hashHellOG) ∧
    committed_r_recover openssl zeros32 (1 - hashHelloG) msgHello (1 - hashHellOG) msgHellO
      pubOther = some keyG ∧
    EC_POINT_mul openssl none openssl.G keyG.a ≠ pubOther.A :=
  ⟨(committed_r_sign_of openssl keyG msgHello 1 hashHelloG gen_h_hello_keyG
      (by decide)).trans (by decide!),
   (committed_r_sign_of openssl keyG msgHellO 1 hashHellOG gen_h_hellO_keyG
      (by decide)).trans (by decide!),
   recover_keyG, by decide!⟩

set_option maxRecDepth 1000000 in
/-- Witness of `committed_r_recover_unchecked`: the recovery of `keyG` against `pubOther`. -/
theorem committed_r_recover_unchecked_witness :
    committed_r_recover openssl zeros32 (1 - hashHelloG) msgHello (1 - hashHellOG) msgHellO
      pubOther = some keyG ∧
    (keyG.pub.A = EC_POINT_mul openssl none openssl.G keyG.a ∧
      gen_r openssl zeros32 ((1 - hashHellOG) + (gen_h openssl msgHellO pubOther.r).2 * keyG.a)
        = some (keyG.pub.r, keyG.k) ∧
      ∀ A : openssl.Point,
        committed_r_recover openssl zeros32 (1 - hashHelloG) msgHello (1 - hashHellOG) msgHellO
          ⟨A, pubOther.r⟩ = some keyG) :=
  ⟨recover_keyG,
   committed_r_recover_unchecked openssl zeros32 (1 - hashHelloG) (1 - hashHellOG) msgHello
     msgHellO pubOther keyG recover_keyG⟩

set_option maxRecDepth 1000000 in
/-- Witness of `committed_r_recover_fails`: the same message twice on secp256k1 with SHA-256,
and a rejected hash with the digest fixed to 32 bytes `0xFF`. -/
theorem committed_r_recover_fails_witness :
    committed_r_recover openssl zeros32 7 msgHello 3 msgHello keyDemo.pub = none ∧
    (gen_h opensslFF msgHello rG).1 = -1 ∧
    committed_r_recover opensslFF zeros32 7 msgHello 3 msgHellO ⟨opensslFF.G, rG⟩ = none :=
  have h1 : (gen_h opensslFF msgHello rG).1 = -1 := by decide!
  ⟨committed_r_recover_fails openssl zeros32 7 3 msgHello msgHello keyDemo.pub (Or.inl rfl),
   h1,
   committed_r_recover_fails opensslFF zeros32 7 3 msgHello msgHellO ⟨opensslFF.G, rG⟩
     (Or.inr (Or.inr (Or.inl h1)))⟩

set_option maxRecDepth 1000000 in
/-- Witness of `gen_h_spec`: the message `"hello"` against the 32 bytes `rG`, with SHA-256; the
hash is accepted. -/
theorem gen_h_spec_witness :
    rG.length = 32 ∧ (∀ x, (openssl.sha x).length = 32) ∧
    gen_h openssl msgHello rG = (1, hashHelloG) ∧
    ((gen_h openssl msgHello rG).2 = (beNat (openssl.sha (rG ++ openssl.sha msgHello)) : Int) ∧
    ((gen_h openssl msgHello rG).1 = 1 ↔
      1 ≤ (beNat (openssl.sha (rG ++ openssl.sha msgHello)) : Int) ∧
        (beNat (openssl.sha (rG ++ openssl.sha msgHello)) : Int) < openssl.order) ∧
    ((gen_h openssl msgHello rG).1 = -1 ↔
      (beNat (openssl.sha (rG ++ openssl.sha msgHello)) : Int) = 0 ∨
        openssl.order ≤ (beNat (openssl.sha (rG ++ openssl.sha msgHello)) : Int))) :=
  have hr : rG.length = 32 := by decide
  ⟨hr, sha256_length, gen_h_hello_rG, gen_h_spec openssl msgHello rG hr sha256_length⟩

set_option maxRecDepth 1000000 in
/-- Witness of `schnorr_sign_binds_nonce`, at the failing input of C16: key `a = 1`, message
`"hello"`, drawn nonce 153, the `malloc`ed memory holding zero bytes. The signature `sig153`
binds the nonce, but its 32 bytes `r` are not the X-coordinate `x153` of `153 * G`: they are
its 31 bytes followed by the byte left in memory. -/
theorem schnorr_sign_binds_nonce_witness :
    schnorr_sign openssl zeros32 153 1 msgHello = some sig153 ∧
    openssl.coords (EC_POINT_mul openssl none openssl.G 153) = some (x153, y153) ∧
    BN_bin2bn sig153.r 32 ≠ (x153 : Int) ∧ sig153.r ≠ beBytes 32 x153 ∧
    ∃ k' x y, gen_r openssl zeros32 153 = some (sig153.r, k') ∧
      EC_POINT_mul openssl (some sig153.s) (EC_POINT_mul openssl none openssl.G 1)
          (gen_h openssl msgHello sig153.r).2 = EC_POINT_mul openssl none openssl.G k' ∧
      openssl.coords (EC_POINT_mul openssl none openssl.G k') = some (x, y) ∧ y % 2 = 0 ∧
      sig153.r = writeBuf zeros32 (BN_bn2bin (x : Int)) ∧
      BN_bin2bn sig153.r (BN_bn2bin (x : Int)).length = x :=
  ⟨sign_153, by decide!, by decide!, by decide!,
   schnorr_sign_binds_nonce zeros32 153 1 msgHello sig153 sign_153⟩

set_option maxRecDepth 1000000 in
/-- Witness of `gen_r_parity`, at the failing input of C17: the nonce 153, the buffer `r`
holding `0xFF` bytes. The 32 bytes `gen_r` leaves in `r` are not the X-coordinate `x153` of
`153 * G`: they are its 31 bytes followed by the byte `0xFF` left in memory. -/
theorem gen_r_parity_witness :
    gen_r openssl ones32 153 = some (r153 ++ [255], 153) ∧
    openssl.coords (EC_POINT_mul openssl none openssl.G 153) = some (x153, y153) ∧
    BN_bin2bn (r153 ++ [255]) 32 ≠ (x153 : Int) ∧ r153 ++ [255] ≠ beBytes 32 x153 ∧
    ∃ x y y', openssl.coords (EC_POINT_mul openssl none openssl.G 153) = some (x, y) ∧
      openssl.coords (EC_POINT_mul openssl none openssl.G 153) = some (x, y') ∧ y' % 2 = 0 ∧
      r153 ++ [255] = writeBuf ones32 (BN_bn2bin (x : Int)) ∧
      BN_bin2bn (r153 ++ [255]) (BN_bn2bin (x : Int)).length = x :=
  have hg : gen_r openssl ones32 153 = some (r153 ++ [255], 153) := by decide!
  ⟨hg, by decide!, by decide!, by decide!, gen_r_parity ones32 153 (r153 ++ [255]) 153 hg⟩

set_option maxRecDepth 1000000 in
/-- C18 (counterexample): `k = 1158` lies in `[1, n-1]` and the Y-coordinate of `1158 * G` is
odd; `gen_r` leaves `-1158` in `k`, which is neither `n - 1158` nor in `[1, n-1]`. -/
theorem gen_r_negated_nonce :
    (1 : Int) ≤ 1158 ∧ (1158 : Int) < openssl.order ∧
    (openssl.coords (EC_POINT_mul openssl none openssl.G 1158)).map (fun R => R.2 % 2) = some 1 ∧
    gen_r openssl zeros32 1158 = some (sig1158.r, -1158) ∧
    (-1158 : Int) ≠ openssl.order - 1158 ∧ ¬ ((1 : Int) ≤ -1158) :=
  ⟨by decide, by decide!, by decide!, gen_r_1158_zeros, by decide!, by decide⟩

set_option maxRecDepth 1000000 in
/-- Witness of `gen_r_nonce_value`: the nonce 1158. -/
theorem gen_r_nonce_value_witness :
    (1 : Int) ≤ 1158 ∧ (1158 : Int) < openssl.order ∧
    ∃ x y r k', openssl.coords (EC_POINT_mul openssl none openssl.G 1158) = some (x, y) ∧
      gen_r openssl zeros32 1158 = some (r, k') ∧
      k' = (if y % 2 = 1 then -1158 else 1158) ∧
      (k' - (if y % 2 = 1 then openssl.order - 1158 else 1158)) % openssl.order = 0 :=
  have h1 : (1 : Int) ≤ 1158 := by decide
  have h2 : (1158 : Int) < openssl.order := by decide!
  ⟨h1, h2, gen_r_nonce_value zeros32 1158 h1 h2⟩

set_option maxRecDepth 1000000 in
/-- Witness of `gen_r_zero_nonce`: the nonce `k = n`, which `BN_rand(k, 256, ...)` can draw. -/
theorem gen_r_zero_nonce_witness :
    (secpN : Int) % openssl.order = 0 ∧
    (openssl.isInf (EC_POINT_mul openssl none openssl.G secpN) = true ∧
      gen_r openssl zeros32 secpN = none ∧
      schnorr_sign openssl zeros32 secpN 1 msgHello = none) :=
  have hk : (secpN : Int) % openssl.order = 0 := by decide!
  ⟨hk, gen_r_zero_nonce zeros32 secpN 1 msgHello hk⟩

set_option maxRecDepth 1000000 in
/-- Witness of `schnorr_verify_s_congr`: the signature `schnorr_sign` makes for the key `a = 1`,
the message `"hello"` and the drawn nonce 1 is valid, and stays valid with `s - n` for `s`. -/
theorem schnorr_verify_s_congr_witness :
    schnorr_sign openssl zeros32 1 1 msgHello = some ⟨rG, 1 - hashHelloG⟩ ∧
    schnorr_verify openssl ones32 ⟨rG, 1 - hashHelloG⟩ openssl.G msgHello = 1 ∧
    schnorr_verify openssl ones32 ⟨rG, 1 - hashHelloG - secpN⟩ openssl.G msgHello = 1 ∧
    1 - hashHelloG < openssl.order ∧ 1 - hashHelloG - secpN < openssl.order ∧
    (1 - hashHelloG - (1 - hashHelloG - secpN)) % openssl.order = 0 ∧
    schnorr_verify openssl ones32 ⟨rG, 1 - hashHelloG - secpN⟩ openssl.G msgHello
      = schnorr_verify openssl ones32 ⟨rG, 1 - hashHelloG⟩ openssl.G msgHello :=
  have h1 : 1 - hashHelloG < openssl.order := by decide!
  have h2 : 1 - hashHelloG - secpN < openssl.order := by decide!
  have h3 : (1 - hashHelloG - (1 - hashHelloG - secpN)) % openssl.order = 0 := by decide!
  have hv : schnorr_verify openssl ones32 ⟨rG, 1 - hashHelloG⟩ openssl.G msgHello = 1 :=
    (schnorr_verify_of ones32 ⟨rG, 1 - hashHelloG⟩ openssl.G msgHello hashHelloG _ _ h1
      gen_h_hello_rG point_sigG).trans (by decide!)
  have hc := schnorr_verify_s_congr ones32 rG (1 - hashHelloG) (1 - hashHelloG - secpN)
    openssl.G msgHello h1 h2 h3
  ⟨(schnorr_sign_of openssl zeros32 1 1 msgHello rG 1 1 hashHelloG gen_r_1_zeros
      gen_h_hello_rG (by decide)).trans (by decide!),
   hv, hc.trans hv, h1, h2, h3, hc⟩

set_option maxRecDepth 1000000 in
/-- Witness of `musig_aggregate_verifies`: the keys `keyM1` (`a = 11`, `k = 2`) and `keyM2`
(`a = 22`, `k = 151`) on `"hello"`, with compressed points as the encoding; `R* = 153 * G` has
an even Y and an X-coordinate of 31 bytes, which `r*` carries padded to 32. -/
theorem musig_aggregate_verifies_witness :
    keyM1.pub.A = EC_POINT_mul openssl none openssl.G keyM1.a ∧
    keyM2.pub.A = EC_POINT_mul openssl none openssl.G keyM2.a ∧
    opensslMusig.point_of_r keyM1.pub.r = some (EC_POINT_mul openssl none openssl.G keyM1.k) ∧
    opensslMusig.point_of_r keyM2.pub.r = some (EC_POINT_mul openssl none openssl.G keyM2.k) ∧
    musig_sign openssl opensslMusig keyM1 [keyM1.pub, keyM2.pub] msgHello
      = some (sigM1, pubM12) ∧
    musig_sign openssl opensslMusig keyM2 [keyM1.pub, keyM2.pub] msgHello
      = some (sigM2, pubM12) ∧
    pubM12 = pubM12 ∧ ∃ agg, musig_aggregate openssl [sigM1, sigM2] = some agg ∧
      musig_verify openssl agg pubM12 msgHello = 1 :=
  have hA1 : keyM1.pub.A = EC_POINT_mul openssl none openssl.G keyM1.a := by decide!
  have hA2 : keyM2.pub.A = EC_POINT_mul openssl none openssl.G keyM2.a := by decide!
  have h1 : musig_sign openssl opensslMusig keyM1 [keyM1.pub, keyM2.pub] msgHello
      = some (sigM1, pubM12) :=
    (musig_sign_of openssl opensslMusig keyM1 _ msgHello pubM12 rM12 coeffM1 hashHelloM12
      combine_M12 coeff_M12_1 gen_h_hello_rM12).trans (by decide!)
  have h2 : musig_sign openssl opensslMusig keyM2 [keyM1.pub, keyM2.pub] msgHello
      = some (sigM2, pubM12) :=
    (musig_sign_of openssl opensslMusig keyM2 _ msgHello pubM12 rM12 coeffM2 hashHelloM12
      combine_M12 coeff_M12_2 gen_h_hello_rM12).trans (by decide!)
  ⟨hA1, hA2, lift_M1, lift_M2, h1, h2,
   musig_aggregate_verifies opensslMusig keyM1 keyM2 msgHello sigM1 sigM2 pubM12 pubM12
     hA1 hA2 lift_M1 lift_M2 h1 h2⟩

end Cschnorr
